import Mathlib

/-!
# Statistics engine and SIMD transform: a shallow embedding

The C functions of `code/main-program-scalar.c` (`calculate_average_scalar`,
`calculate_magnitudes_scalar`, `calculate_least_squares_scalar`,
`calculate_variance_scalar`, `main` with its row-reading loop) and of `raspberry_main.c`
(`process_temperature_simd`) are translated statement by statement.

Conventions of the embedding:

* `float` values are elements of a field `α` (exact arithmetic): the definitions run on `ℚ`,
  the theorems hold in every linearly ordered field, `ℝ` included. Three functions are
  given a second time in IEEE 754 binary32 arithmetic (`FloatValue`, `round32`), to show
  where the rounded runs leave the exact ones.
* a `float *` argument is a `List α`; reading or writing past its end is the fault
  `Fault.out_of_bounds`.
* a `float` division whose divisor is zero leaves exact arithmetic (the C program gets an
  infinity or a NaN and carries on): the embedding records it as `Fault.div_by_zero`.
* `int` arguments are `Int`; loop counters start at `0` and only grow, so they are `Nat`.
* the file `data.csv` is `none` when it cannot be opened and otherwise the list of the
  buffers `fgets` delivers; one `sscanf` call is a function from a buffer to the number of
  fields it converted and their values.
-/

namespace Workshop

/-- Ways in which a run leaves the exact-arithmetic model. -/
inductive Fault
  | div_by_zero
  | out_of_bounds
  deriving DecidableEq, Repr

section Embedding

variable {α : Type} [Field α] [DecidableEq α]

/-- Read `a[i]`. -/
def load (a : List α) (i : Nat) : Except Fault α :=
  match a[i]? with
  | some v => .ok v
  | none => .error .out_of_bounds

/-- Write `a[i] = v`. -/
def store (a : List α) (i : Nat) (v : α) : Except Fault (List α) :=
  if i < a.length then .ok (a.set i v) else .error .out_of_bounds

/-- The `float` division `a / b`. -/
def fdiv (a b : α) : Except Fault α :=
  if b = 0 then .error .div_by_zero else .ok (a / b)

/-- The statement `for (int i = i0; i < n; i++) body`, entered with counter `i` and state `s`. -/
def for_loop {σ : Type} (n : Int) (body : Nat → σ → Except Fault σ) (i : Nat) (s : σ) :
    Except Fault σ :=
  if (i : Int) < n then
    match body i s with
    | .ok s' => for_loop n body (i + 1) s'
    | .error e => .error e
  else .ok s
termination_by (n - i).toNat
decreasing_by omega

/-- Embedding of `calculate_average_scalar` of `main-program-scalar.c`. -/
def calculate_average_scalar (data : List α) (n : Int) : Except Fault α := do
  let sum : α := 0
  let sum ← for_loop n (fun i sum => do
    let d ← load data i
    pure (sum + d)) 0 sum
  fdiv sum (n : α)

/-- Embedding of `calculate_magnitudes_scalar`; `sqrt` is the `math.h` routine, and the
result is the final content of the buffer `magnitudes`. -/
def calculate_magnitudes_scalar (sqrt : α → α) (x y z magnitudes : List α) (n : Int) :
    Except Fault (List α) :=
  for_loop n (fun i magnitudes => do
    let xi ← load x i
    let yi ← load y i
    let zi ← load z i
    store magnitudes i (sqrt (xi * xi + yi * yi + zi * zi))) 0 magnitudes

/-- The values the loop of `calculate_magnitudes_scalar` computes for the indices below `n`
(closed form used to state its result). -/
def magnitude_values (sqrt : α → α) (x y z : List α) (n : Nat) : List α :=
  (List.range n).map (fun i =>
    sqrt (x.getD i 0 * x.getD i 0 + y.getD i 0 * y.getD i 0 + z.getD i 0 * z.getD i 0))

/-- The four running sums of `calculate_least_squares_scalar`. -/
structure Sums (α : Type) where
  x_sum : α
  y_sum : α
  xy_sum : α
  x2_sum : α

/-- The summation loop of `calculate_least_squares_scalar`. -/
def least_squares_sums (x y : List α) (n : Int) : Except Fault (Sums α) :=
  for_loop n (fun i s => do
    let xi ← load x i
    let yi ← load y i
    pure { x_sum := s.x_sum + xi, y_sum := s.y_sum + yi,
           xy_sum := s.xy_sum + xi * yi, x2_sum := s.x2_sum + xi * xi }) 0
    { x_sum := 0, y_sum := 0, xy_sum := 0, x2_sum := 0 }

/-- Embedding of `calculate_least_squares_scalar`; the result is the pair `(*m, *b)`. -/
def calculate_least_squares_scalar (x y : List α) (n : Int) : Except Fault (α × α) := do
  let s ← least_squares_sums x y n
  let x_mean ← fdiv s.x_sum (n : α)
  let y_mean ← fdiv s.y_sum (n : α)
  let m ← fdiv (s.xy_sum - (n : α) * x_mean * y_mean) (s.x2_sum - (n : α) * x_mean * x_mean)
  let b := y_mean - m * x_mean
  pure (m, b)

/-- Spec side of the linear fit: `mean = sum / n`. -/
def mean_of (l : List α) (n : Int) : α :=
  l.sum / (n : α)

/-- Spec side of the linear fit: `sum(x·y) − n·mean_x·mean_y`. -/
def slope_numerator (x y : List α) (n : Int) : α :=
  (List.zipWith (fun xi yi => xi * yi) x y).sum - (n : α) * mean_of x n * mean_of y n

/-- Spec side of the linear fit: `sum(x²) − n·mean_x²`. -/
def slope_denominator (x : List α) (n : Int) : α :=
  (x.map (fun xi => xi ^ 2)).sum - (n : α) * mean_of x n ^ 2

/-- Spec side of the linear fit: the slope `m`. -/
def fit_slope (x y : List α) (n : Int) : α :=
  slope_numerator x y n / slope_denominator x n

/-- Spec side of the linear fit: the intercept `b = mean_y − m·mean_x`. -/
def fit_intercept (x y : List α) (n : Int) : α :=
  mean_of y n - fit_slope x y n * mean_of x n

/-- Total squared residual of the line `y = m·x + b` on the points `(x[i], y[i])`. -/
def squared_residual (x y : List α) (m b : α) : α :=
  (List.zipWith (fun xi yi => (yi - (m * xi + b)) ^ 2) x y).sum

/-- Embedding of `calculate_variance_scalar`. -/
def calculate_variance_scalar (data : List α) (n : Int) : Except Fault α := do
  let mean : α := 0
  let variance : α := 0
  let mean ← for_loop n (fun i mean => do
    let d ← load data i
    pure (mean + d)) 0 mean
  let mean ← fdiv mean (n : α)
  let variance ← for_loop n (fun i variance => do
    let d ← load data i
    let diff := d - mean
    pure (variance + diff * diff)) 0 variance
  fdiv variance (n : α)

/-- Modelled from the spec: the vector type `float32x4_t` of `arm_neon.h`, which is not among
the sources; it holds as many `float` lanes as the lane width of the system, 4. -/
structure float32x4_t (α : Type) where
  lane0 : α
  lane1 : α
  lane2 : α
  lane3 : α

/-- Modelled from the spec: the intrinsic `vld1q_f32` of `arm_neon.h`, which is not among the
sources; it loads one chunk, the 4 consecutive elements `p[i] .. p[i+3]`. -/
def vld1q_f32 (p : List α) (i : Nat) : Except Fault (float32x4_t α) := do
  let v0 ← load p i
  let v1 ← load p (i + 1)
  let v2 ← load p (i + 2)
  let v3 ← load p (i + 3)
  pure { lane0 := v0, lane1 := v1, lane2 := v2, lane3 := v3 }

/-- Modelled from the spec: the intrinsic `vmulq_n_f32` of `arm_neon.h`, which is not among
the sources; it multiplies every lane by the scalar `c`. -/
def vmulq_n_f32 (v : float32x4_t α) (c : α) : float32x4_t α :=
  { lane0 := v.lane0 * c, lane1 := v.lane1 * c, lane2 := v.lane2 * c, lane3 := v.lane3 * c }

/-- Modelled from the spec: the intrinsic `vst1q_f32` of `arm_neon.h`, which is not among the
sources; it stores one chunk to the 4 consecutive elements `p[i] .. p[i+3]`. -/
def vst1q_f32 (p : List α) (i : Nat) (v : float32x4_t α) : Except Fault (List α) := do
  let p ← store p i v.lane0
  let p ← store p (i + 1) v.lane1
  let p ← store p (i + 2) v.lane2
  store p (i + 3) v.lane3

/-- The loop `for (int i = 0; i < size; i += 4)` of `process_temperature_simd`, entered with
counter `i`; the result is the final content of `output`. -/
def process_temperature_simd_loop (input output : List α) (size : Int) (i : Nat) :
    Except Fault (List α) :=
  if (i : Int) < size then do
    let data ← vld1q_f32 input i
    let processed := vmulq_n_f32 data 1.8
    let output ← vst1q_f32 output i processed
    process_temperature_simd_loop input output size (i + 4)
  else pure output
termination_by (size - i).toNat
decreasing_by omega

/-- Embedding of `process_temperature_simd` of `raspberry_main.c`. -/
def process_temperature_simd (input output : List α) (size : Int) : Except Fault (List α) :=
  process_temperature_simd_loop input output size 0

/-- The elementwise transform the SIMD routine is compared with: the first `size` elements of
`output` become `input[i] * 1.8`, the others are left as they are. -/
def scale_elementwise (input output : List α) (size : Nat) : List α :=
  (input.take size).map (fun t => t * 1.8) ++ output.drop size

/-- The formulas of the comment in `calculate_least_squares_scalar`:
`m = (n*sum(x*y) - sum(x)*sum(y)) / (n*sum(x^2) - sum(x)^2)`. -/
def documented_slope (x y : List α) (n : Int) : α :=
  ((n : α) * (List.zipWith (fun xi yi => xi * yi) x y).sum - x.sum * y.sum)
    / ((n : α) * (x.map (fun xi => xi ^ 2)).sum - x.sum ^ 2)

/-- The formulas of the comment in `calculate_least_squares_scalar`:
`b = sum(y)/n - m*sum(x)/n`. -/
def documented_intercept (x y : List α) (n : Int) : α :=
  y.sum / (n : α) - documented_slope x y n * x.sum / (n : α)

/-- The constant `MAX_LINES` of `main-program-scalar.c`. -/
def MAX_LINES : Nat := 33000

/-- Modelled from the spec: the macro `EXIT_SUCCESS` of `stdlib.h`, which is not among the
sources; the exit code of a run that succeeded. -/
def EXIT_SUCCESS : Int := 0

/-- Modelled from the spec: the macro `EXIT_FAILURE` of `stdlib.h`, which is not among the
sources; the exit code of a run that failed. -/
def EXIT_FAILURE : Int := 1

/-- One row of `data.csv`: `id,x_g,y_g,z_g,x_deg,y_deg,z_deg`. -/
structure Row (α : Type) where
  line_id : Int
  x_g : α
  y_g : α
  z_g : α
  x_deg : α
  y_deg : α
  z_deg : α

/-- Outcome of the call `sscanf(buffer, "%d,%f,%f,%f,%f,%f,%f", ...)`: `converted` is the
value the call returns, the number of leading fields it converted and assigned; `row` holds
the values, of which only the first `converted` are assigned. -/
structure Scan (α : Type) where
  converted : Nat
  row : Row α

/-- The seven arrays `line_id`, `x_g`, ..., `z_deg` that `main` declares. -/
structure Columns (α : Type) where
  line_id : List Int
  x_g : List α
  y_g : List α
  z_g : List α
  x_deg : List α
  y_deg : List α
  z_deg : List α

/-- Every one of the seven arrays has `n` elements. -/
def Columns.sized (cols : Columns α) (n : Nat) : Prop :=
  cols.line_id.length = n ∧ cols.x_g.length = n ∧ cols.y_g.length = n ∧ cols.z_g.length = n ∧
    cols.x_deg.length = n ∧ cols.y_deg.length = n ∧ cols.z_deg.length = n

/-- The first `count` entries of the seven arrays are the fields of `rows`, in order. -/
def Columns.first_entries (cols : Columns α) (count : Nat) (rows : List (Row α)) : Prop :=
  cols.line_id.take count = rows.map (fun r => r.line_id) ∧
    cols.x_g.take count = rows.map (fun r => r.x_g) ∧
    cols.y_g.take count = rows.map (fun r => r.y_g) ∧
    cols.z_g.take count = rows.map (fun r => r.z_g) ∧
    cols.x_deg.take count = rows.map (fun r => r.x_deg) ∧
    cols.y_deg.take count = rows.map (fun r => r.y_deg) ∧
    cols.z_deg.take count = rows.map (fun r => r.z_deg)

/-- The assignments the `sscanf` call makes through `&line_id[count]`, ..., `&z_deg[count]`:
the `k`-th array receives its field when more than `k` fields were converted. -/
def scan_assign (cols : Columns α) (count : Nat) (s : Scan α) : Columns α :=
  { line_id := if 0 < s.converted then cols.line_id.set count s.row.line_id else cols.line_id,
    x_g := if 1 < s.converted then cols.x_g.set count s.row.x_g else cols.x_g,
    y_g := if 2 < s.converted then cols.y_g.set count s.row.y_g else cols.y_g,
    z_g := if 3 < s.converted then cols.z_g.set count s.row.z_g else cols.z_g,
    x_deg := if 4 < s.converted then cols.x_deg.set count s.row.x_deg else cols.x_deg,
    y_deg := if 5 < s.converted then cols.y_deg.set count s.row.y_deg else cols.y_deg,
    z_deg := if 6 < s.converted then cols.z_deg.set count s.row.z_deg else cols.z_deg }

/-- The loop `while (fgets(buffer, MAX_LINE_LENGTH, file) && count < MAX_LINES)` of `main`,
run on the lines `fgets` has still to deliver; `sscanf` stands for the parsing of one
buffer. The result is the final `count` and the final arrays. -/
def read_rows {L : Type} (sscanf : L → Scan α) : List L → Nat → Columns α → Nat × Columns α
  | [], count, cols => (count, cols)
  | buffer :: rest, count, cols =>
    if count < MAX_LINES then
      let s := sscanf buffer
      let cols := scan_assign cols count s
      if s.converted ≠ 7 then
        read_rows sscanf rest count cols
      else
        read_rows sscanf rest (count + 1) cols
    else (count, cols)

/-- The well-formed rows of a list of lines, in file order: those on which `sscanf`
returns 7. -/
def well_formed_rows {L : Type} (sscanf : L → Scan α) (lines : List L) : List (Row α) :=
  lines.filterMap (fun buffer =>
    if (sscanf buffer).converted = 7 then some (sscanf buffer).row else none)

/-- What `main` prints after reading the file. -/
structure Report (α : Type) where
  average_x_g : Except Fault α
  average_y_g : Except Fault α
  average_z_g : Except Fault α
  first_magnitudes : Except Fault (List α)
  fit : Except Fault (α × α)
  variance_z_g : Except Fault α

/-- Embedding of `main` of `main-program-scalar.c`. The file `data.csv` is `none` when
`fopen` fails and the list of its lines otherwise; `mem` and `magnitudes` are the initial
contents of the local arrays. The result is the exit code and what was printed. -/
def main {L : Type} (sqrt : α → α) (sscanf : L → Scan α) (file : Option (List L))
    (mem : Columns α) (magnitudes : List α) : Int × Option (Report α) :=
  match file with
  | none => (EXIT_FAILURE, none)
  | some [] => (EXIT_FAILURE, none)
  | some (_ :: lines) =>
    let (count, cols) := read_rows sscanf lines 0 mem
    let magnitudes := calculate_magnitudes_scalar sqrt cols.x_g cols.y_g cols.z_g magnitudes count
    (EXIT_SUCCESS, some
      { average_x_g := calculate_average_scalar cols.x_g count,
        average_y_g := calculate_average_scalar cols.y_g count,
        average_z_g := calculate_average_scalar cols.z_g count,
        first_magnitudes := magnitudes.map (fun m => m.take (min 5 count)),
        fit := calculate_least_squares_scalar cols.x_deg cols.y_deg count,
        variance_z_g := calculate_variance_scalar cols.z_g count })

end Embedding

/-! ## Binary32 arithmetic

The functions above compute in an exact field. The definitions below follow the same C
statements in IEEE 754 arithmetic instead: every `float` operation rounds its exact result
once to binary32, round to nearest, ties to even, and overflows to an infinity. -/

section Binary32

/-- A value of an IEEE 754 binary format: a finite number, an infinity or a NaN. The sign of
a zero is not recorded. -/
inductive FloatValue
  | finite (q : ℚ)
  | pos_inf
  | neg_inf
  | nan
  deriving DecidableEq, Repr

/-- The integer nearest to `r`, a tie going to the even one. -/
def round_half_even (r : ℚ) : ℤ :=
  if r - ⌊r⌋ < 1 / 2 then ⌊r⌋
  else if 1 / 2 < r - ⌊r⌋ then ⌊r⌋ + 1
  else if ⌊r⌋ % 2 = 0 then ⌊r⌋ else ⌊r⌋ + 1

/-- Rounding of the exact number `q` to the binary format with `p` significand bits and
normal exponents `emin .. emax`: round to nearest, ties to even, on the grid of the binade of
`q` (the subnormal grid below `2 ^ emin`); a result of magnitude `2 ^ (emax + 1)` or more
overflows to the infinity of the sign of `q`. -/
def round_nearest (p : ℕ) (emin emax : ℤ) (q : ℚ) : FloatValue :=
  let quantum : ℚ := 2 ^ (max (Int.log 2 |q|) emin - ((p : ℤ) - 1))
  let r : ℚ := (round_half_even (q / quantum) : ℚ) * quantum
  if (2 : ℚ) ^ (emax + 1) ≤ |r| then (if q < 0 then .neg_inf else .pos_inf) else .finite r

/-- Rounding to binary32, the format of `float`. -/
def round32 (q : ℚ) : FloatValue :=
  round_nearest 24 (-126) 127 q

/-- Rounding to binary64, the format of `double`. -/
def round64 (q : ℚ) : FloatValue :=
  round_nearest 53 (-1022) 1023 q

/-- Conversion of a `double` to `float`. -/
def to_binary32 : FloatValue → FloatValue
  | .finite q => round32 q
  | v => v

/-- Conversion of an `int` to `float`. -/
def binary32_of_int (n : Int) : FloatValue :=
  round32 (n : ℚ)

/-- The `float` negation. -/
def binary32_neg : FloatValue → FloatValue
  | .finite a => .finite (-a)
  | .pos_inf => .neg_inf
  | .neg_inf => .pos_inf
  | .nan => .nan

/-- The `float` addition `a + b`. -/
def binary32_add : FloatValue → FloatValue → FloatValue
  | .finite a, .finite b => round32 (a + b)
  | .nan, _ => .nan
  | _, .nan => .nan
  | .pos_inf, .neg_inf => .nan
  | .neg_inf, .pos_inf => .nan
  | .pos_inf, _ => .pos_inf
  | _, .pos_inf => .pos_inf
  | .neg_inf, _ => .neg_inf
  | _, .neg_inf => .neg_inf

/-- The `float` subtraction `a - b`. -/
def binary32_sub (a b : FloatValue) : FloatValue :=
  binary32_add a (binary32_neg b)

/-- An infinity times (or divided by) a value of the sign of `s`: the infinity `v` when
`0 < s`, the opposite one when `s < 0`, NaN when `s = 0`. -/
def scale_inf (v : FloatValue) (s : ℚ) : FloatValue :=
  if s = 0 then .nan else if 0 < s then v else binary32_neg v

/-- The `float` multiplication `a * b`. -/
def binary32_mul : FloatValue → FloatValue → FloatValue
  | .finite a, .finite b => round32 (a * b)
  | .nan, _ => .nan
  | _, .nan => .nan
  | .finite a, v => scale_inf v a
  | v, .finite b => scale_inf v b
  | .pos_inf, .pos_inf => .pos_inf
  | .neg_inf, .neg_inf => .pos_inf
  | .pos_inf, .neg_inf => .neg_inf
  | .neg_inf, .pos_inf => .neg_inf

/-- The `float` division `a / b`; a zero divisor is taken as `+0`, which is what the
conversion of the `int` 0 gives. -/
def binary32_div : FloatValue → FloatValue → FloatValue
  | .finite a, .finite b =>
    if b = 0 then (if a = 0 then .nan else if 0 < a then .pos_inf else .neg_inf)
    else round32 (a / b)
  | .nan, _ => .nan
  | _, .nan => .nan
  | .finite _, _ => .finite 0
  | v, .finite b => if b < 0 then binary32_neg v else v
  | _, _ => .nan

/-- Embedding of `calculate_variance_scalar` in binary32 arithmetic. -/
def calculate_variance_scalar_binary32 (data : List FloatValue) (n : Int) :
    Except Fault FloatValue := do
  let mean : FloatValue := .finite 0
  let variance : FloatValue := .finite 0
  let mean ← for_loop n (fun i mean => do
    let d ← load data i
    pure (binary32_add mean d)) 0 mean
  let mean := binary32_div mean (binary32_of_int n)
  let variance ← for_loop n (fun i variance => do
    let d ← load data i
    let diff := binary32_sub d mean
    pure (binary32_add variance (binary32_mul diff diff))) 0 variance
  pure (binary32_div variance (binary32_of_int n))

/-- Embedding of `calculate_magnitudes_scalar` in binary32 arithmetic: the sum of squares is
computed in `float`, `sqrt` is the `double` routine of `math.h`, and the assignment converts
its result to `float`. -/
def calculate_magnitudes_scalar_binary32 (sqrt : FloatValue → FloatValue)
    (x y z magnitudes : List FloatValue) (n : Int) : Except Fault (List FloatValue) :=
  for_loop n (fun i magnitudes => do
    let xi ← load x i
    let yi ← load y i
    let zi ← load z i
    store magnitudes i (to_binary32 (sqrt
      (binary32_add (binary32_add (binary32_mul xi xi) (binary32_mul yi yi))
        (binary32_mul zi zi))))) 0 magnitudes

/-- The intrinsic `vmulq_n_f32` in binary32 arithmetic: every lane is multiplied by the
`float` scalar `c`. -/
def vmulq_n_binary32 (v : float32x4_t FloatValue) (c : FloatValue) : float32x4_t FloatValue :=
  { lane0 := binary32_mul v.lane0 c, lane1 := binary32_mul v.lane1 c,
    lane2 := binary32_mul v.lane2 c, lane3 := binary32_mul v.lane3 c }

/-- The loop of `process_temperature_simd` in binary32 arithmetic; the `double` constant
`1.8` is converted to the `float` parameter of `vmulq_n_f32`. -/
def process_temperature_simd_binary32_loop (input output : List FloatValue) (size : Int)
    (i : Nat) : Except Fault (List FloatValue) :=
  if (i : Int) < size then do
    let data ← vld1q_f32 input i
    let processed := vmulq_n_binary32 data (to_binary32 (round64 1.8))
    let output ← vst1q_f32 output i processed
    process_temperature_simd_binary32_loop input output size (i + 4)
  else pure output
termination_by (size - i).toNat
decreasing_by omega

/-- Embedding of `process_temperature_simd` in binary32 arithmetic. -/
def process_temperature_simd_binary32 (input output : List FloatValue) (size : Int) :
    Except Fault (List FloatValue) :=
  process_temperature_simd_binary32_loop input output size 0

end Binary32

/-! ## Memory accesses, division and the counted loop -/

section Loops

theorem ok_bind {ε β γ : Type} (a : β) (f : β → Except ε γ) :
    ((Except.ok a : Except ε β) >>= f) = f a := rfl

theorem error_bind {ε β γ : Type} (e : ε) (f : β → Except ε γ) :
    ((Except.error e : Except ε β) >>= f) = .error e := rfl

theorem load_of_lt {α : Type} (a : List α) (i : Nat) (h : i < a.length) :
    load a i = .ok a[i] := by
  simp [load, List.getElem?_eq_getElem h]

theorem fdiv_of_ne {α : Type} [Field α] [DecidableEq α] (a b : α) (h : b ≠ 0) :
    fdiv a b = .ok (a / b) := by
  simp [fdiv, h]

theorem fdiv_zero {α : Type} [Field α] [DecidableEq α] (a : α) :
    fdiv a 0 = .error .div_by_zero := by
  simp [fdiv]

theorem for_loop_done {σ : Type} (n : Int) (body : Nat → σ → Except Fault σ) (i : Nat) (s : σ)
    (h : n ≤ i) : for_loop n body i s = .ok s := by
  rw [for_loop, if_neg (by omega)]

theorem for_loop_step {σ : Type} (n : Int) (body : Nat → σ → Except Fault σ) (i : Nat)
    (s s' : σ) (h : (i : Int) < n) (hb : body i s = .ok s') :
    for_loop n body i s = for_loop n body (i + 1) s' := by
  rw [for_loop, if_pos h, hb]

/-- Invariant rule: when `F j` is the state on entry to iteration `j`, the loop entered at
`i` ends in the state `F n`. -/
theorem for_loop_state {σ : Type} (n : Int) (body : Nat → σ → Except Fault σ) (F : Nat → σ)
    (hF : ∀ j : Nat, (j : Int) < n → body j (F j) = .ok (F (j + 1))) :
    ∀ (k i : Nat), n.toNat - i = k → for_loop n body i (F i) = .ok (F (max i n.toNat)) := by
  intro k
  induction k with
  | zero =>
    intro i hk
    have hi : n ≤ i := by omega
    rw [for_loop_done n body i _ hi, max_eq_left (by omega)]
  | succ k ih =>
    intro i hk
    have hi : (i : Int) < n := by omega
    rw [for_loop_step n body i _ _ hi (hF i hi), ih (i + 1) (by omega)]
    congr 2
    omega

theorem for_loop_state_zero {σ : Type} (n : Int) (body : Nat → σ → Except Fault σ)
    (F : Nat → σ) (hF : ∀ j : Nat, (j : Int) < n → body j (F j) = .ok (F (j + 1))) :
    for_loop n body 0 (F 0) = .ok (F n.toNat) := by
  have h := for_loop_state n body F hF (n.toNat - 0) 0 rfl
  simpa using h

/-- A loop that adds `L[i]` to its accumulator at iteration `i` ends with the sum of `L`. -/
theorem for_loop_sum {α : Type} [Field α] (L : List α) (n : Int)
    (body : Nat → α → Except Fault α) (hlen : (L.length : Int) = n)
    (hbody : ∀ (j : Nat) (h : j < L.length) (s : α), body j s = .ok (s + L[j])) :
    for_loop n body 0 0 = .ok L.sum := by
  have h := for_loop_state_zero n body (fun j => (L.take j).sum) (by
    intro j hj
    have hj2 : j < L.length := by omega
    show body j (L.take j).sum = .ok (L.take (j + 1)).sum
    rw [hbody j hj2, List.sum_take_succ L j hj2])
  have hn : n.toNat = L.length := by omega
  simpa [hn] using h

end Loops

/-! ## Average -/

section Average

variable {α : Type} [LinearOrderedField α]

theorem cast_ne_zero_of_pos (n : Int) (hn : 1 ≤ n) : (n : α) ≠ 0 := by
  have h : (0 : α) < (n : α) := by exact_mod_cast (by omega : (0 : Int) < n)
  exact ne_of_gt h

theorem average_loop_eq (data : List α) (n : Int) (hlen : (data.length : Int) = n) :
    for_loop n (fun i sum => do
      let d ← load data i
      pure (sum + d)) 0 (0 : α) = .ok data.sum := by
  apply for_loop_sum data n _ hlen
  intro j h s
  rw [load_of_lt data j h]
  rfl

theorem average_eq_sum (data : List α) (n : Int) (hn : 1 ≤ n)
    (hlen : (data.length : Int) = n) :
    calculate_average_scalar data n = .ok (data.sum / (n : α)) := by
  simp only [calculate_average_scalar]
  rw [average_loop_eq data n hlen, ok_bind]
  exact fdiv_of_ne _ _ (cast_ne_zero_of_pos n hn)

/-- C1: for a sequence `data` of length `n ≥ 1`, `calculate_average_scalar data n` returns
the left-to-right sum of the elements divided by `n`; on `[2, 4, 6, 8]` it returns `5`. -/
theorem calculate_average_scalar_spec (data : List α) (n : Int) (hn : 1 ≤ n)
    (hlen : (data.length : Int) = n) :
    calculate_average_scalar data n = .ok (data.foldl (fun acc d => acc + d) 0 / (n : α)) ∧
      calculate_average_scalar [(2 : α), 4, 6, 8] 4 = .ok 5 := by
  constructor
  · rw [average_eq_sum data n hn hlen, List.sum_eq_foldl]
  · rw [average_eq_sum [(2 : α), 4, 6, 8] 4 (by norm_num) (by simp)]
    norm_num

theorem calculate_average_scalar_spec_witness :
    (1 : Int) ≤ 3 ∧ ((([1, 2, 6] : List ℚ).length : Int) = 3) ∧
      calculate_average_scalar [(1 : ℚ), 2, 6] 3
        = .ok (([(1 : ℚ), 2, 6]).foldl (fun acc d => acc + d) 0 / ((3 : Int) : ℚ)) ∧
      calculate_average_scalar [(2 : ℚ), 4, 6, 8] 4 = .ok 5 :=
  ⟨by decide, by decide,
    calculate_average_scalar_spec [(1 : ℚ), 2, 6] 3 (by decide) (by decide)⟩

end Average

/-! ## Vector magnitudes -/

section Magnitudes

theorem store_extends {α : Type} (vals buf : List α) (j : Nat) (hv : j < vals.length)
    (hb : j < buf.length) :
    store (vals.take j ++ buf.drop j) j vals[j]
      = .ok (vals.take (j + 1) ++ buf.drop (j + 1)) := by
  have hlen : (vals.take j ++ buf.drop j).length = buf.length := by
    simp only [List.length_append, List.length_take, List.length_drop]
    omega
  have htake : (vals.take j).length = j := by
    simp only [List.length_take]
    omega
  unfold store
  rw [if_pos (by omega)]
  congr 1
  apply List.ext_getElem?
  intro k
  simp only [List.getElem?_set, List.getElem?_append, List.getElem?_take, List.getElem?_drop,
    List.length_take, hlen]
  by_cases h1 : k < j
  · have h2 : ¬ j = k := by omega
    have h3 : k < min j vals.length := by omega
    have h4 : k < min (j + 1) vals.length := by omega
    have h5 : k < j + 1 := by omega
    simp [h1, h2, h3, h4, h5]
  · by_cases h2 : j = k
    · subst h2
      have h4 : j < min (j + 1) vals.length := by omega
      simp [h4, hb, List.getElem?_eq_getElem hv]
    · have h6 : min j vals.length = j := by omega
      have h7 : min (j + 1) vals.length = j + 1 := by omega
      have h5 : ¬ k < j + 1 := by omega
      simp only [h2, h6, h7, h1, h5, if_false]
      congr 1
      omega

theorem magnitudes_eq {α : Type} [Field α] (sqrt : α → α) (x y z magnitudes : List α) (n : Int)
    (hx : (x.length : Int) = n) (hy : (y.length : Int) = n) (hz : (z.length : Int) = n)
    (hm : n ≤ (magnitudes.length : Int)) :
    calculate_magnitudes_scalar sqrt x y z magnitudes n
      = .ok (magnitude_values sqrt x y z n.toNat ++ magnitudes.drop n.toNat) := by
  have h := for_loop_state_zero n (fun i magnitudes => do
      let xi ← load x i
      let yi ← load y i
      let zi ← load z i
      store magnitudes i (sqrt (xi * xi + yi * yi + zi * zi)))
    (fun j => (magnitude_values sqrt x y z n.toNat).take j ++ magnitudes.drop j) (by
      intro j hj
      have hvl : (magnitude_values sqrt x y z n.toNat).length = n.toNat := by
        simp [magnitude_values]
      have hjv : j < (magnitude_values sqrt x y z n.toNat).length := by omega
      have hjx : j < x.length := by omega
      have hjy : j < y.length := by omega
      have hjz : j < z.length := by omega
      have hval : (magnitude_values sqrt x y z n.toNat)[j]
          = sqrt (x[j] * x[j] + y[j] * y[j] + z[j] * z[j]) := by
        simp [magnitude_values, List.getD_eq_getElem, hjx, hjy, hjz]
      show (do
        let xi ← load x j
        let yi ← load y j
        let zi ← load z j
        store ((magnitude_values sqrt x y z n.toNat).take j ++ magnitudes.drop j) j
          (sqrt (xi * xi + yi * yi + zi * zi))) = _
      rw [load_of_lt x j hjx, ok_bind, load_of_lt y j hjy, ok_bind, load_of_lt z j hjz,
        ok_bind, ← hval]
      exact store_extends _ _ j hjv (by omega))
  have hvl : (magnitude_values sqrt x y z n.toNat).length = n.toNat := by
    simp [magnitude_values]
  simp only [List.take_zero, List.drop_zero, List.nil_append] at h
  rw [List.take_of_length_le (by omega)] at h
  exact h

theorem length_magnitude_values {α : Type} [Field α] [DecidableEq α] (sqrt : α → α)
    (x y z : List α) (n : Nat) : (magnitude_values sqrt x y z n).length = n := by
  simp [magnitude_values]

theorem getElem?_magnitudes {α : Type} [Field α] [DecidableEq α] (sqrt : α → α)
    (x y z magnitudes : List α) (n i : Nat) (hx : i < x.length) (hy : i < y.length)
    (hz : i < z.length) (hi : i < n) :
    (magnitude_values sqrt x y z n ++ magnitudes.drop n)[i]?
      = some (sqrt (x[i] * x[i] + y[i] * y[i] + z[i] * z[i])) := by
  rw [List.getElem?_append, if_pos (by rw [length_magnitude_values]; exact hi)]
  simp [magnitude_values, List.getD_eq_getElem, hx, hy, hz, hi, List.getElem?_range hi]

/-- C2: for sequences `x`, `y`, `z` of length `n` (and a buffer `magnitudes` of at least `n`
elements), `calculate_magnitudes_scalar` ends with
`magnitudes[i] = sqrt (x[i]^2 + y[i]^2 + z[i]^2)` at every index `i < n`; on `x = [3]`,
`y = [4]`, `z = [0]` the buffer becomes `[5]`. -/
theorem calculate_magnitudes_scalar_spec (x y z magnitudes : List ℝ) (n : Int)
    (hx : (x.length : Int) = n) (hy : (y.length : Int) = n) (hz : (z.length : Int) = n)
    (hm : n ≤ (magnitudes.length : Int)) :
    (∃ mags : List ℝ, calculate_magnitudes_scalar Real.sqrt x y z magnitudes n = .ok mags ∧
      mags.length = magnitudes.length ∧
      ∀ (i : Nat) (hix : i < x.length) (hiy : i < y.length) (hiz : i < z.length),
        mags[i]? = some (Real.sqrt (x[i] ^ 2 + y[i] ^ 2 + z[i] ^ 2))) ∧
      calculate_magnitudes_scalar Real.sqrt [3] [4] [0] [0] 1 = .ok [5] := by
  constructor
  · refine ⟨_, magnitudes_eq Real.sqrt x y z magnitudes n hx hy hz hm, ?_, ?_⟩
    · rw [List.length_append, length_magnitude_values, List.length_drop]
      omega
    · intro i hix hiy hiz
      rw [getElem?_magnitudes Real.sqrt x y z magnitudes n.toNat i hix hiy hiz (by omega)]
      simp only [pow_two]
  · rw [magnitudes_eq Real.sqrt [3] [4] [0] [0] 1 (by simp) (by simp) (by simp) (by simp)]
    have h : Real.sqrt (3 * 3 + 4 * 4 + 0 * 0) = 5 := by
      rw [show (3 * 3 + 4 * 4 + 0 * 0 : ℝ) = 5 ^ 2 by norm_num]
      exact Real.sqrt_sq (by norm_num)
    have hr : List.range 1 = [0] := rfl
    simp only [magnitude_values, Int.toNat_one, hr, List.map_cons, List.map_nil,
      List.getD_cons_zero, h, List.drop_succ_cons, List.drop_nil, List.append_nil]

theorem calculate_magnitudes_scalar_spec_witness :
    ((([1, 2] : List ℝ).length : Int) = 2) ∧ ((([2, 0] : List ℝ).length : Int) = 2) ∧
      ((([2, 7] : List ℝ).length : Int) = 2) ∧ ((2 : Int) ≤ (([0, 0, 9] : List ℝ).length : Int)) ∧
      ((∃ mags : List ℝ,
          calculate_magnitudes_scalar Real.sqrt [1, 2] [2, 0] [2, 7] [0, 0, 9] 2 = .ok mags ∧
          mags.length = ([0, 0, 9] : List ℝ).length ∧
          ∀ (i : Nat) (hix : i < ([1, 2] : List ℝ).length) (hiy : i < ([2, 0] : List ℝ).length)
            (hiz : i < ([2, 7] : List ℝ).length),
            mags[i]? = some (Real.sqrt (([1, 2] : List ℝ)[i] ^ 2 + ([2, 0] : List ℝ)[i] ^ 2
              + ([2, 7] : List ℝ)[i] ^ 2))) ∧
        calculate_magnitudes_scalar Real.sqrt [3] [4] [0] [0] 1 = .ok [5]) :=
  ⟨by simp, by simp, by simp, by simp,
    calculate_magnitudes_scalar_spec [1, 2] [2, 0] [2, 7] [0, 0, 9] 2
      (by simp) (by simp) (by simp) (by simp)⟩

end Magnitudes

/-! ## Variance -/

section Variance

variable {α : Type} [LinearOrderedField α]

theorem deviation_loop_eq (data : List α) (n : Int) (mean : α)
    (hlen : (data.length : Int) = n) :
    for_loop n (fun i variance => do
      let d ← load data i
      let diff := d - mean
      pure (variance + diff * diff)) 0 (0 : α)
      = .ok (data.map (fun d => (d - mean) ^ 2)).sum := by
  apply for_loop_sum (data.map (fun d => (d - mean) ^ 2)) n _ (by simpa using hlen)
  intro j h s
  have hj : j < data.length := by simpa using h
  rw [load_of_lt data j hj, ok_bind, List.getElem_map, pow_two]
  rfl

theorem variance_eq (data : List α) (n : Int) (hn : 1 ≤ n) (hlen : (data.length : Int) = n) :
    calculate_variance_scalar data n
      = .ok ((data.map (fun d => (d - data.sum / (n : α)) ^ 2)).sum / (n : α)) := by
  simp only [calculate_variance_scalar]
  rw [average_loop_eq data n hlen, ok_bind, fdiv_of_ne _ _ (cast_ne_zero_of_pos n hn), ok_bind,
    deviation_loop_eq data n _ hlen, ok_bind]
  exact fdiv_of_ne _ _ (cast_ne_zero_of_pos n hn)

/-- C3: for a sequence `data` of length `n ≥ 1`, `calculate_variance_scalar data n` returns
the population variance `(1/n) * Σ (data[i] - mean)^2` with `mean = (Σ data[i]) / n`; the
divisor is `n`: on `[0, 2]` the result is `1` (dividing by `n - 1` would give `2`). -/
theorem calculate_variance_scalar_spec (data : List α) (n : Int) (hn : 1 ≤ n)
    (hlen : (data.length : Int) = n) :
    calculate_variance_scalar data n
        = .ok ((1 / (n : α)) * (data.map (fun d => (d - data.sum / (n : α)) ^ 2)).sum) ∧
      calculate_variance_scalar [(0 : α), 2] 2 = .ok 1 := by
  constructor
  · rw [variance_eq data n hn hlen, one_div_mul_eq_div]
  · rw [variance_eq [(0 : α), 2] 2 (by norm_num) (by simp)]
    norm_num

theorem calculate_variance_scalar_spec_witness :
    (1 : Int) ≤ 3 ∧ ((([1, 2, 6] : List ℚ).length : Int) = 3) ∧
      calculate_variance_scalar [(1 : ℚ), 2, 6] 3
        = .ok ((1 / ((3 : Int) : ℚ)) * (([1, 2, 6] : List ℚ).map
            (fun d => (d - ([1, 2, 6] : List ℚ).sum / ((3 : Int) : ℚ)) ^ 2)).sum) ∧
      calculate_variance_scalar [(0 : ℚ), 2] 2 = .ok 1 :=
  ⟨by decide, by decide,
    calculate_variance_scalar_spec [(1 : ℚ), 2, 6] 3 (by decide) (by decide)⟩

/-- C7: for `n ≥ 1` and any value `k`, `calculate_variance_scalar` returns `0` on the sequence
of `n` elements all equal to `k`. -/
theorem calculate_variance_scalar_const (n : Int) (k : α) (hn : 1 ≤ n) :
    calculate_variance_scalar (List.replicate n.toNat k) n = .ok 0 := by
  have hcast : ((n.toNat : Nat) : α) = (n : α) := by
    have h : ((n.toNat : Nat) : Int) = n := Int.toNat_of_nonneg (by omega)
    exact_mod_cast congrArg (fun t : Int => (t : α)) h
  rw [variance_eq _ n hn (by simp; omega)]
  have hmean : (List.replicate n.toNat k).sum / (n : α) = k := by
    rw [List.sum_replicate, nsmul_eq_mul, hcast]
    exact mul_div_cancel_left₀ k (cast_ne_zero_of_pos n hn)
  rw [hmean]
  simp

theorem calculate_variance_scalar_const_witness :
    (1 : Int) ≤ 4 ∧ calculate_variance_scalar (List.replicate (4 : Int).toNat (7 : ℚ)) 4 = .ok 0 :=
  ⟨by decide, calculate_variance_scalar_const 4 (7 : ℚ) (by decide)⟩

end Variance

/-! ## Least-squares fit -/

section LeastSquares

variable {α : Type} [LinearOrderedField α]

theorem least_squares_sums_eq (x y : List α) (n : Int) (hx : (x.length : Int) = n)
    (hy : (y.length : Int) = n) :
    least_squares_sums x y n
      = .ok { x_sum := x.sum, y_sum := y.sum,
              xy_sum := (List.zipWith (fun xi yi => xi * yi) x y).sum,
              x2_sum := (x.map (fun xi => xi ^ 2)).sum } := by
  have h := for_loop_state_zero n (fun i (s : Sums α) => do
      let xi ← load x i
      let yi ← load y i
      pure { x_sum := s.x_sum + xi, y_sum := s.y_sum + yi,
             xy_sum := s.xy_sum + xi * yi, x2_sum := s.x2_sum + xi * xi })
    (fun j => { x_sum := (x.take j).sum, y_sum := (y.take j).sum,
                xy_sum := ((List.zipWith (fun xi yi => xi * yi) x y).take j).sum,
                x2_sum := ((x.map (fun xi => xi ^ 2)).take j).sum }) (by
      intro j hj
      have hjx : j < x.length := by omega
      have hjy : j < y.length := by omega
      have hjz : j < (List.zipWith (fun xi yi => xi * yi) x y).length := by
        simp only [List.length_zipWith]
        omega
      have hjm : j < (x.map (fun xi => xi ^ 2)).length := by simpa using hjx
      show (do
        let xi ← load x j
        let yi ← load y j
        pure _) = _
      rw [load_of_lt x j hjx, ok_bind, load_of_lt y j hjy, ok_bind]
      beta_reduce
      rw [List.sum_take_succ x j hjx, List.sum_take_succ y j hjy, List.sum_take_succ _ j hjz,
        List.sum_take_succ _ j hjm, List.getElem_zipWith, List.getElem_map, pow_two]
      rfl)
  have hnx : n.toNat = x.length := by omega
  have hlz : (List.zipWith (fun xi yi => xi * yi) x y).length ≤ n.toNat := by
    simp only [List.length_zipWith]
    omega
  have hlm : (x.map (fun xi => xi ^ 2)).length ≤ n.toNat := by
    simp only [List.length_map]
    omega
  beta_reduce at h
  rw [List.take_of_length_le (by omega : x.length ≤ n.toNat),
    List.take_of_length_le (by omega : y.length ≤ n.toNat),
    List.take_of_length_le hlz, List.take_of_length_le hlm] at h
  simpa [least_squares_sums] using h

theorem least_squares_eq (x y : List α) (n : Int) (hn : 1 ≤ n) (hx : (x.length : Int) = n)
    (hy : (y.length : Int) = n) :
    calculate_least_squares_scalar x y n
      = (fdiv (slope_numerator x y n) (slope_denominator x n) >>= fun m =>
          pure (m, mean_of y n - m * mean_of x n)) := by
  have h0 := cast_ne_zero_of_pos (α := α) n hn
  simp only [calculate_least_squares_scalar]
  rw [least_squares_sums_eq x y n hx hy, ok_bind, fdiv_of_ne _ _ h0, ok_bind,
    fdiv_of_ne _ _ h0, ok_bind]
  simp only [slope_numerator, slope_denominator, mean_of, pow_two, mul_assoc]

/-- C4: for sequences `x`, `y` of length `n ≥ 1`, `calculate_least_squares_scalar` stores
`m = (sum(x*y) - n*mean_x*mean_y) / (sum(x^2) - n*mean_x^2)` and `b = mean_y - m*mean_x`,
with `mean_x = sum(x)/n` and `mean_y = sum(y)/n`: its result is that of the slope division
followed by the intercept formula, hence `(m, b)` whenever the divisor is not zero. -/
theorem calculate_least_squares_scalar_spec (x y : List α) (n : Int) (hn : 1 ≤ n)
    (hx : (x.length : Int) = n) (hy : (y.length : Int) = n) :
    calculate_least_squares_scalar x y n
        = (fdiv (slope_numerator x y n) (slope_denominator x n) >>= fun m =>
            pure (m, mean_of y n - m * mean_of x n)) ∧
      (slope_denominator x n ≠ 0 →
        calculate_least_squares_scalar x y n = .ok (fit_slope x y n, fit_intercept x y n)) := by
  refine ⟨least_squares_eq x y n hn hx hy, fun hd => ?_⟩
  rw [least_squares_eq x y n hn hx hy, fdiv_of_ne _ _ hd, ok_bind]
  rfl

theorem calculate_least_squares_scalar_spec_witness :
    (1 : Int) ≤ 3 ∧ ((([1, 2, 4] : List ℚ).length : Int) = 3) ∧
      ((([3, 1, 5] : List ℚ).length : Int) = 3) ∧
      slope_denominator [(1 : ℚ), 2, 4] 3 ≠ 0 ∧
      calculate_least_squares_scalar [(1 : ℚ), 2, 4] [3, 1, 5] 3
        = (fdiv (slope_numerator [(1 : ℚ), 2, 4] [3, 1, 5] 3)
              (slope_denominator [(1 : ℚ), 2, 4] 3) >>= fun m =>
            pure (m, mean_of [(3 : ℚ), 1, 5] 3 - m * mean_of [(1 : ℚ), 2, 4] 3)) ∧
      calculate_least_squares_scalar [(1 : ℚ), 2, 4] [3, 1, 5] 3
        = .ok (fit_slope [(1 : ℚ), 2, 4] [3, 1, 5] 3, fit_intercept [(1 : ℚ), 2, 4] [3, 1, 5] 3) := by
  have hd : slope_denominator [(1 : ℚ), 2, 4] 3 ≠ 0 := by
    norm_num [slope_denominator, mean_of]
  have h := calculate_least_squares_scalar_spec [(1 : ℚ), 2, 4] [3, 1, 5] 3 (by decide)
    (by decide) (by decide)
  exact ⟨by decide, by decide, by decide, hd, h.1, h.2 hd⟩

theorem sum_sq_sub (x : List α) (c : α) :
    (x.map (fun xi => (xi - c) ^ 2)).sum
      = (x.map (fun xi => xi ^ 2)).sum - 2 * c * x.sum + (x.length : α) * c ^ 2 := by
  induction x with
  | nil => simp
  | cons a t ih =>
    simp only [List.map_cons, List.sum_cons, List.length_cons, Nat.cast_add, Nat.cast_one, ih]
    ring

theorem sum_sq_eq_zero_iff (x : List α) (c : α) :
    (x.map (fun xi => (xi - c) ^ 2)).sum = 0 ↔ ∀ a ∈ x, a = c := by
  induction x with
  | nil => simp
  | cons a t ih =>
    have ht : 0 ≤ (t.map (fun xi => (xi - c) ^ 2)).sum := by
      apply List.sum_nonneg
      intro v hv
      obtain ⟨w, _, rfl⟩ := List.mem_map.mp hv
      exact sq_nonneg _
    simp only [List.map_cons, List.sum_cons, List.mem_cons, forall_eq_or_imp]
    rw [add_eq_zero_iff_of_nonneg (sq_nonneg _) ht, ih]
    constructor
    · rintro ⟨h1, h2⟩
      exact ⟨sub_eq_zero.mp ((pow_eq_zero_iff two_ne_zero).mp h1), h2⟩
    · rintro ⟨h1, h2⟩
      exact ⟨by rw [h1, sub_self]; ring, h2⟩

/-- The slope denominator is the sum of the squared deviations of `x` from its mean. -/
theorem slope_denominator_eq (x : List α) (n : Int) (hn : 1 ≤ n)
    (hx : (x.length : Int) = n) :
    slope_denominator x n = (x.map (fun xi => (xi - mean_of x n) ^ 2)).sum := by
  have h0 := cast_ne_zero_of_pos (α := α) n hn
  have hlen : (x.length : α) = (n : α) := by exact_mod_cast congrArg (fun t : Int => (t : α)) hx
  have hs : x.sum = (n : α) * mean_of x n := by
    unfold mean_of
    field_simp
  rw [sum_sq_sub, hlen, slope_denominator]
  linear_combination (2 * mean_of x n) * hs

theorem slope_denominator_eq_zero_iff (x : List α) (n : Int) (hn : 1 ≤ n)
    (hx : (x.length : Int) = n) :
    slope_denominator x n = 0 ↔ ∀ a ∈ x, ∀ b ∈ x, a = b := by
  have h0 := cast_ne_zero_of_pos (α := α) n hn
  rw [slope_denominator_eq x n hn hx, sum_sq_eq_zero_iff]
  constructor
  · intro h a ha b hb
    rw [h a ha, h b hb]
  · intro h a ha
    have hsum : x.sum = x.length • a := List.sum_eq_card_nsmul x a (fun b hb => h b hb a ha)
    have hlen : (x.length : α) = (n : α) := by
      exact_mod_cast congrArg (fun t : Int => (t : α)) hx
    rw [mean_of, hsum, nsmul_eq_mul, hlen]
    exact (mul_div_cancel_left₀ a h0).symm

/-- C8: for `x` of length `n ≥ 1`, the divisor `x2_sum - n * x_mean * x_mean` that
`calculate_least_squares_scalar` computes is zero exactly when all `x` values are identical,
and exactly then the run performs the slope division with a zero divisor (nothing guards it:
the run ends in the division-by-zero fault). -/
theorem calculate_least_squares_scalar_degenerate (x y : List α) (n : Int) (hn : 1 ≤ n)
    (hx : (x.length : Int) = n) (hy : (y.length : Int) = n) :
    ∃ (s : Sums α) (x_mean : α), least_squares_sums x y n = .ok s ∧
      fdiv s.x_sum (n : α) = .ok x_mean ∧
      (s.x2_sum - (n : α) * x_mean * x_mean = 0 ↔ ∀ a ∈ x, ∀ b ∈ x, a = b) ∧
      (calculate_least_squares_scalar x y n = .error .div_by_zero ↔
        ∀ a ∈ x, ∀ b ∈ x, a = b) := by
  have h0 := cast_ne_zero_of_pos (α := α) n hn
  refine ⟨_, _, least_squares_sums_eq x y n hx hy, fdiv_of_ne _ _ h0, ?_, ?_⟩
  · rw [← slope_denominator_eq_zero_iff x n hn hx, slope_denominator, mean_of]
    simp only [pow_two, mul_assoc]
  · rw [← slope_denominator_eq_zero_iff x n hn hx, least_squares_eq x y n hn hx hy]
    by_cases hd : slope_denominator x n = 0
    · rw [hd, fdiv_zero, error_bind]
      simp
    · rw [fdiv_of_ne _ _ hd, ok_bind]
      simp [hd, pure, Except.pure]

theorem calculate_least_squares_scalar_degenerate_witness :
    (1 : Int) ≤ 2 ∧ ((([3, 3] : List ℚ).length : Int) = 2) ∧
      ((([1, 5] : List ℚ).length : Int) = 2) ∧
      ∃ (s : Sums ℚ) (x_mean : ℚ), least_squares_sums [(3 : ℚ), 3] [1, 5] 2 = .ok s ∧
        fdiv s.x_sum ((2 : Int) : ℚ) = .ok x_mean ∧
        (s.x2_sum - ((2 : Int) : ℚ) * x_mean * x_mean = 0 ↔
          ∀ a ∈ [(3 : ℚ), 3], ∀ b ∈ [(3 : ℚ), 3], a = b) ∧
        (calculate_least_squares_scalar [(3 : ℚ), 3] [1, 5] 2 = .error .div_by_zero ↔
          ∀ a ∈ [(3 : ℚ), 3], ∀ b ∈ [(3 : ℚ), 3], a = b) :=
  ⟨by decide, by decide, by decide,
    calculate_least_squares_scalar_degenerate [(3 : ℚ), 3] [1, 5] 2 (by decide) (by decide)
      (by decide)⟩

theorem least_squares_of_ne (x y : List α) (n : Int) (hn : 1 ≤ n) (hx : (x.length : Int) = n)
    (hy : (y.length : Int) = n) (hd : slope_denominator x n ≠ 0) :
    calculate_least_squares_scalar x y n = .ok (fit_slope x y n, fit_intercept x y n) := by
  rw [least_squares_eq x y n hn hx hy, fdiv_of_ne _ _ hd, ok_bind]
  rfl

theorem one_le_of_not_const {β : Type} (x : List β) (n : Int) (hx : (x.length : Int) = n)
    (hnc : ¬ ∀ a ∈ x, ∀ b ∈ x, a = b) : 1 ≤ n := by
  by_contra hlt
  apply hnc
  have hnil : x = [] := List.length_eq_zero.mp (by omega)
  intro a ha
  rw [hnil] at ha
  exact absurd ha (List.not_mem_nil a)

theorem slope_denominator_ne_zero (x : List α) (n : Int) (hx : (x.length : Int) = n)
    (hnc : ¬ ∀ a ∈ x, ∀ b ∈ x, a = b) : slope_denominator x n ≠ 0 := fun h =>
  hnc ((slope_denominator_eq_zero_iff x n (one_le_of_not_const x n hx hnc) hx).mp h)

theorem squared_residual_expand (m b : α) :
    ∀ (x y : List α), x.length = y.length →
      squared_residual x y m b
        = (y.map (fun yi => yi ^ 2)).sum
          - 2 * m * (List.zipWith (fun xi yi => xi * yi) x y).sum - 2 * b * y.sum
          + m ^ 2 * (x.map (fun xi => xi ^ 2)).sum + 2 * m * b * x.sum
          + (x.length : α) * b ^ 2 := by
  intro x
  induction x with
  | nil =>
    intro y hy
    have hnil : y = [] := List.length_eq_zero.mp hy.symm
    simp [squared_residual, hnil]
  | cons a t ih =>
    intro y hy
    cases y with
    | nil => simp at hy
    | cons c u =>
      have hlen : t.length = u.length := by simpa using hy
      have h := ih u hlen
      simp only [squared_residual] at h
      simp only [squared_residual, List.zipWith_cons_cons, List.map_cons, List.sum_cons,
        List.length_cons, Nat.cast_add, Nat.cast_one, h]
      ring

theorem sum_sq_affine (x : List α) (dm db : α) :
    (x.map (fun xi => (dm * xi + db) ^ 2)).sum
      = dm ^ 2 * (x.map (fun xi => xi ^ 2)).sum + 2 * dm * db * x.sum
        + (x.length : α) * db ^ 2 := by
  induction x with
  | nil => simp
  | cons a t ih =>
    simp only [List.map_cons, List.sum_cons, List.length_cons, Nat.cast_add, Nat.cast_one, ih]
    ring

/-- The normal equations: the residuals of the fitted line sum to zero, and so do the
residuals weighted by `x`. -/
theorem normal_equations (x y : List α) (n : Int) (hn : 1 ≤ n)
    (hd : slope_denominator x n ≠ 0) :
    (List.zipWith (fun xi yi => xi * yi) x y).sum
        - fit_slope x y n * (x.map (fun xi => xi ^ 2)).sum - fit_intercept x y n * x.sum = 0 ∧
      y.sum - fit_slope x y n * x.sum - fit_intercept x y n * (n : α) = 0 := by
  have h0 := cast_ne_zero_of_pos (α := α) n hn
  have hm : fit_slope x y n * slope_denominator x n = slope_numerator x y n :=
    div_mul_cancel₀ _ hd
  have hsx : x.sum = (n : α) * mean_of x n := by
    unfold mean_of
    field_simp
  have hsy : y.sum = (n : α) * mean_of y n := by
    unfold mean_of
    field_simp
  simp only [slope_denominator, slope_numerator] at hm
  constructor
  · simp only [fit_intercept]
    linear_combination (-(mean_of y n - fit_slope x y n * mean_of x n)) * hsx - hm
  · simp only [fit_intercept]
    linear_combination hsy - fit_slope x y n * hsx

/-- C5: for equal-length sequences `x`, `y` with `x` not constant,
`calculate_least_squares_scalar` produces a pair `(m, b)` whose total squared residual is at
most that of every other pair `(m', b')`. -/
theorem calculate_least_squares_scalar_minimises (x y : List α) (n : Int)
    (hx : (x.length : Int) = n) (hy : (y.length : Int) = n)
    (hnc : ¬ ∀ a ∈ x, ∀ b ∈ x, a = b) :
    ∃ m b : α, calculate_least_squares_scalar x y n = .ok (m, b) ∧
      ∀ m' b' : α, squared_residual x y m b ≤ squared_residual x y m' b' := by
  have hn := one_le_of_not_const x n hx hnc
  have hd := slope_denominator_ne_zero x n hx hnc
  refine ⟨_, _, least_squares_of_ne x y n hn hx hy hd, ?_⟩
  intro m' b'
  obtain ⟨hA, hB⟩ := normal_equations x y n hn hd
  have hxy : x.length = y.length := by omega
  have hlen : (x.length : α) = (n : α) := by exact_mod_cast congrArg (fun t : Int => (t : α)) hx
  have hQ : 0 ≤ (x.map (fun xi =>
      ((m' - fit_slope x y n) * xi + (b' - fit_intercept x y n)) ^ 2)).sum := by
    apply List.sum_nonneg
    intro v hv
    obtain ⟨w, _, rfl⟩ := List.mem_map.mp hv
    exact sq_nonneg _
  rw [sum_sq_affine, hlen] at hQ
  have hA' := congrArg (fun t => (m' - fit_slope x y n) * t) hA
  have hB' := congrArg (fun t => (b' - fit_intercept x y n) * t) hB
  simp only [mul_zero] at hA' hB'
  rw [squared_residual_expand _ _ x y hxy, squared_residual_expand _ _ x y hxy, hlen]
  linarith

theorem calculate_least_squares_scalar_minimises_witness :
    ((([1, 2, 4] : List ℚ).length : Int) = 3) ∧ ((([3, 1, 5] : List ℚ).length : Int) = 3) ∧
      (¬ ∀ a ∈ [(1 : ℚ), 2, 4], ∀ b ∈ [(1 : ℚ), 2, 4], a = b) ∧
      ∃ m b : ℚ, calculate_least_squares_scalar [(1 : ℚ), 2, 4] [3, 1, 5] 3 = .ok (m, b) ∧
        ∀ m' b' : ℚ, squared_residual [(1 : ℚ), 2, 4] [3, 1, 5] m b
          ≤ squared_residual [(1 : ℚ), 2, 4] [3, 1, 5] m' b' :=
  ⟨by decide, by decide, by decide,
    calculate_least_squares_scalar_minimises [(1 : ℚ), 2, 4] [3, 1, 5] 3 (by decide) (by decide)
      (by decide)⟩

theorem sum_affine (x : List α) (a c : α) :
    (x.map (fun xi => a * xi + c)).sum = a * x.sum + (x.length : α) * c := by
  induction x with
  | nil => simp
  | cons v t ih =>
    simp only [List.map_cons, List.sum_cons, List.length_cons, Nat.cast_add, Nat.cast_one, ih]
    ring

theorem sum_mul_affine (x : List α) (a c : α) :
    (List.zipWith (fun xi yi => xi * yi) x (x.map (fun xi => a * xi + c))).sum
      = a * (x.map (fun xi => xi ^ 2)).sum + c * x.sum := by
  induction x with
  | nil => simp
  | cons v t ih =>
    simp only [List.map_cons, List.zipWith_cons_cons, List.sum_cons, ih]
    ring

theorem eq_map_of_forall_getElem {β : Type} (x y : List β) (f : β → β) (hlen : x.length = y.length)
    (h : ∀ (i : Nat) (h1 : i < x.length) (h2 : i < y.length), y[i] = f x[i]) :
    y = x.map f := by
  apply List.ext_getElem (by simpa using hlen.symm)
  intro i h1 h2
  rw [List.getElem_map]
  exact h i (by simpa using h2) h1

theorem least_squares_of_line (x : List α) (n : Int) (a c : α) (hx : (x.length : Int) = n)
    (hnc : ¬ ∀ u ∈ x, ∀ v ∈ x, u = v) :
    calculate_least_squares_scalar x (x.map (fun xi => a * xi + c)) n = .ok (a, c) := by
  have hn := one_le_of_not_const x n hx hnc
  have hd := slope_denominator_ne_zero x n hx hnc
  have h0 := cast_ne_zero_of_pos (α := α) n hn
  have hlen : (x.length : α) = (n : α) := by exact_mod_cast congrArg (fun t : Int => (t : α)) hx
  have hsx : x.sum = (n : α) * mean_of x n := by
    unfold mean_of
    field_simp
  have hmy : mean_of (x.map (fun xi => a * xi + c)) n = a * mean_of x n + c := by
    simp only [mean_of, sum_affine, hlen]
    field_simp
    ring
  have hnum : slope_numerator x (x.map (fun xi => a * xi + c)) n = a * slope_denominator x n := by
    simp only [slope_numerator, slope_denominator, sum_mul_affine, hmy]
    linear_combination (c - c) * hsx + c * hsx
  have hm : fit_slope x (x.map (fun xi => a * xi + c)) n = a := by
    rw [fit_slope, hnum]
    exact mul_div_cancel_right₀ a hd
  have hb : fit_intercept x (x.map (fun xi => a * xi + c)) n = c := by
    rw [fit_intercept, hm, hmy]
    ring
  rw [least_squares_of_ne x _ n hn hx (by simpa using hx) hd, hm, hb]

/-- C6: when `x` is not constant and `y[i] = a * x[i] + c` at every index,
`calculate_least_squares_scalar` returns exactly `m = a` and `b = c`; the two points
`x = [1, 2]`, `y = [2, 4]` give `m = 2`, `b = 0`. -/
theorem calculate_least_squares_scalar_exact (x y : List α) (n : Int) (a c : α)
    (hx : (x.length : Int) = n) (hy : (y.length : Int) = n)
    (hnc : ¬ ∀ u ∈ x, ∀ v ∈ x, u = v)
    (hline : ∀ (i : Nat) (h1 : i < x.length) (h2 : i < y.length), y[i] = a * x[i] + c) :
    calculate_least_squares_scalar x y n = .ok (a, c) ∧
      calculate_least_squares_scalar [(1 : α), 2] [2, 4] 2 = .ok (2, 0) := by
  constructor
  · rw [eq_map_of_forall_getElem x y (fun xi => a * xi + c) (by omega) hline]
    exact least_squares_of_line x n a c hx hnc
  · have h := least_squares_of_line [(1 : α), 2] 2 2 0 (by simp) (by
      intro h
      have h12 := h 1 (by simp) 2 (by simp)
      norm_num at h12)
    have hy2 : List.map (fun xi : α => 2 * xi + 0) [1, 2] = [2, 4] := by
      simp only [List.map_cons, List.map_nil]
      norm_num
    rw [hy2] at h
    exact h

theorem calculate_least_squares_scalar_exact_witness :
    ((([1, 2, 4] : List ℚ).length : Int) = 3) ∧ ((([1, -1, -5] : List ℚ).length : Int) = 3) ∧
      (¬ ∀ u ∈ [(1 : ℚ), 2, 4], ∀ v ∈ [(1 : ℚ), 2, 4], u = v) ∧
      (∀ (i : Nat) (_h1 : i < ([1, 2, 4] : List ℚ).length)
        (h2 : i < ([1, -1, -5] : List ℚ).length),
        ([1, -1, -5] : List ℚ)[i] = (-2) * ([1, 2, 4] : List ℚ)[i] + 3) ∧
      (calculate_least_squares_scalar [(1 : ℚ), 2, 4] [1, -1, -5] 3 = .ok (-2, 3) ∧
        calculate_least_squares_scalar [(1 : ℚ), 2] [2, 4] 2 = .ok (2, 0)) := by
  have hline : ∀ (i : Nat) (h1 : i < ([1, 2, 4] : List ℚ).length)
      (h2 : i < ([1, -1, -5] : List ℚ).length),
      ([1, -1, -5] : List ℚ)[i] = (-2) * ([1, 2, 4] : List ℚ)[i] + 3 := by
    intro i h1 h2
    have hi : i = 0 ∨ i = 1 ∨ i = 2 := by
      simp only [List.length_cons, List.length_nil] at h1
      omega
    rcases hi with rfl | rfl | rfl <;> norm_num
  exact ⟨by decide, by decide, by decide, hline,
    calculate_least_squares_scalar_exact [(1 : ℚ), 2, 4] [1, -1, -5] 3 (-2) 3 (by decide)
      (by decide) (by decide) hline⟩

end LeastSquares

/-! ## SIMD temperature transform -/

section Simd

theorem simd_loop_done {α : Type} [Field α] (input output : List α) (size : Int) (i : Nat) (h : size ≤ i) :
    process_temperature_simd_loop input output size i = .ok output := by
  rw [process_temperature_simd_loop, if_neg (by omega)]
  rfl

theorem simd_loop_step {α : Type} [Field α] (input output output' : List α) (size : Int) (i : Nat)
    (data : float32x4_t α) (h : (i : Int) < size) (hld : vld1q_f32 input i = .ok data)
    (hst : vst1q_f32 output i (vmulq_n_f32 data 1.8) = .ok output') :
    process_temperature_simd_loop input output size i
      = process_temperature_simd_loop input output' size (i + 4) := by
  rw [process_temperature_simd_loop, if_pos h, hld, ok_bind]
  dsimp only
  rw [hst, ok_bind]

theorem vld1q_of_lt {α : Type} (p : List α) (i : Nat) (h : i + 3 < p.length) :
    vld1q_f32 p i
      = .ok { lane0 := p[i], lane1 := p[i + 1], lane2 := p[i + 2], lane3 := p[i + 3] } := by
  unfold vld1q_f32
  rw [load_of_lt p i (by omega), ok_bind, load_of_lt p (i + 1) (by omega), ok_bind,
    load_of_lt p (i + 2) (by omega), ok_bind, load_of_lt p (i + 3) h, ok_bind]
  rfl

theorem vst1q_extends {α : Type} (vals buf : List α) (i : Nat) (hv : i + 3 < vals.length)
    (hb : i + 3 < buf.length) :
    vst1q_f32 (vals.take i ++ buf.drop i) i
        { lane0 := vals[i], lane1 := vals[i + 1], lane2 := vals[i + 2], lane3 := vals[i + 3] }
      = .ok (vals.take (i + 4) ++ buf.drop (i + 4)) := by
  unfold vst1q_f32
  rw [store_extends vals buf i (by omega) (by omega), ok_bind,
    store_extends vals buf (i + 1) (by omega) (by omega), ok_bind,
    store_extends vals buf (i + 2) (by omega) (by omega), ok_bind,
    store_extends vals buf (i + 3) hv hb]

theorem simd_loop_eq {α : Type} [Field α] (input output : List α) (size : Int) (h4 : size % 4 = 0)
    (hin : size ≤ (input.length : Int)) (hout : size ≤ (output.length : Int)) :
    ∀ (k i : Nat), size.toNat - i = k → (i : Int) % 4 = 0 → (i : Int) ≤ size →
      process_temperature_simd_loop input
          ((input.map (fun t => t * 1.8)).take i ++ output.drop i) size i
        = .ok ((input.map (fun t => t * 1.8)).take size.toNat ++ output.drop size.toNat) := by
  intro k
  induction k using Nat.strong_induction_on with
  | _ k ih =>
    intro i hk hi4 hile
    by_cases hlt : (i : Int) < size
    · have hi3 : i + 3 < input.length := by omega
      have ho3 : i + 3 < output.length := by omega
      have hm3 : i + 3 < (input.map (fun t : α => t * 1.8)).length := by simpa using hi3
      have hst := vst1q_extends (input.map (fun t : α => t * 1.8)) output i hm3 ho3
      simp only [List.getElem_map] at hst
      rw [simd_loop_step input _ _ size i _ hlt (vld1q_of_lt input i hi3) hst]
      exact ih (size.toNat - (i + 4)) (by omega) (i + 4) rfl (by omega) (by omega)
    · have hieq : size.toNat = i := by omega
      rw [simd_loop_done input _ size i (by omega), hieq]

theorem simd_eq {α : Type} [Field α] (input output : List α) (size : Int) (h4 : size % 4 = 0)
    (hin : size ≤ (input.length : Int)) (hout : size ≤ (output.length : Int))
    (h0 : 0 ≤ size) :
    process_temperature_simd input output size
      = .ok (scale_elementwise input output size.toNat) := by
  have h := simd_loop_eq input output size h4 hin hout (size.toNat - 0) 0 rfl (by simp)
    (by simpa using h0)
  simp only [List.take_zero, List.drop_zero, List.nil_append] at h
  rw [process_temperature_simd, h, scale_elementwise, List.map_take]

/-- C9: for a `size` that is a non-negative multiple of 4 and buffers of at least `size`
elements, `process_temperature_simd`, which works on chunks of 4 lanes, agrees with the
elementwise map: the final `output[i]` is `input[i] * 1.8` for every `i < size`; and it
touches no index `≥ size`, since it runs without fault on the buffers cut to `size`
elements. -/
theorem process_temperature_simd_spec {α : Type} [Field α] (input output : List α) (size : Int) (h0 : 0 ≤ size)
    (h4 : size % 4 = 0) (hin : size ≤ (input.length : Int))
    (hout : size ≤ (output.length : Int)) :
    process_temperature_simd input output size
        = .ok (scale_elementwise input output size.toNat) ∧
      (∀ (i : Nat) (hi : i < input.length), (i : Int) < size →
        (scale_elementwise input output size.toNat)[i]? = some (input[i] * 1.8)) ∧
      process_temperature_simd (input.take size.toNat) (output.take size.toNat) size
        = .ok ((input.take size.toNat).map (fun t => t * 1.8)) := by
  refine ⟨simd_eq input output size h4 hin hout h0, ?_, ?_⟩
  · intro i hi his
    have hlt : i < ((input.take size.toNat).map (fun t : α => t * 1.8)).length := by
      simp only [List.length_map, List.length_take]
      omega
    rw [scale_elementwise, List.getElem?_append, if_pos hlt, List.getElem?_map,
      List.getElem?_take, if_pos (by omega), List.getElem?_eq_getElem hi]
    rfl
  · have hlt : ((input.take size.toNat).length : Int) = size := by
      simp only [List.length_take]
      omega
    have hlo : ((output.take size.toNat).length : Int) = size := by
      simp only [List.length_take]
      omega
    rw [simd_eq _ _ size h4 (by omega) (by omega) h0, scale_elementwise,
      List.take_take, min_self, List.drop_eq_nil_of_le (by omega), List.append_nil]

theorem process_temperature_simd_spec_witness :
    (0 : Int) ≤ 4 ∧ (4 : Int) % 4 = 0 ∧ ((4 : Int) ≤ (([1, 2, 3, 4, 5] : List ℚ).length : Int)) ∧
      ((4 : Int) ≤ (([0, 0, 0, 0, 7, 7] : List ℚ).length : Int)) ∧
      (process_temperature_simd [(1 : ℚ), 2, 3, 4, 5] [0, 0, 0, 0, 7, 7] 4
          = .ok (scale_elementwise [(1 : ℚ), 2, 3, 4, 5] [0, 0, 0, 0, 7, 7] (4 : Int).toNat) ∧
        (∀ (i : Nat) (hi : i < ([1, 2, 3, 4, 5] : List ℚ).length), (i : Int) < 4 →
          (scale_elementwise [(1 : ℚ), 2, 3, 4, 5] [0, 0, 0, 0, 7, 7] (4 : Int).toNat)[i]?
            = some (([1, 2, 3, 4, 5] : List ℚ)[i] * 1.8)) ∧
        process_temperature_simd (([1, 2, 3, 4, 5] : List ℚ).take (4 : Int).toNat)
            (([0, 0, 0, 0, 7, 7] : List ℚ).take (4 : Int).toNat) 4
          = .ok ((([1, 2, 3, 4, 5] : List ℚ).take (4 : Int).toNat).map (fun t => t * 1.8))) :=
  ⟨by decide, by decide, by decide, by decide,
    process_temperature_simd_spec [(1 : ℚ), 2, 3, 4, 5] [0, 0, 0, 0, 7, 7] 4 (by decide)
      (by decide) (by decide) (by decide)⟩

end Simd

/-! ## Divisions by `n` -/

section Divisions

variable {α : Type} [LinearOrderedField α]

theorem average_zero (data : List α) :
    calculate_average_scalar data 0 = .error .div_by_zero := by
  simp only [calculate_average_scalar]
  rw [for_loop_done 0 _ 0 _ (by simp), ok_bind, Int.cast_zero]
  exact fdiv_zero _

theorem variance_zero (data : List α) :
    calculate_variance_scalar data 0 = .error .div_by_zero := by
  simp only [calculate_variance_scalar]
  rw [for_loop_done 0 _ 0 _ (by simp), ok_bind, Int.cast_zero, fdiv_zero, error_bind]

theorem least_squares_zero (x y : List α) :
    calculate_least_squares_scalar x y 0 = .error .div_by_zero := by
  simp only [calculate_least_squares_scalar, least_squares_sums]
  rw [for_loop_done 0 _ 0 _ (by simp), ok_bind, Int.cast_zero, fdiv_zero, error_bind]

/-- C12: for `n ≥ 1` every division by `n` in `calculate_average_scalar`,
`calculate_variance_scalar` and the two means of `calculate_least_squares_scalar` has a
non-zero divisor, so none of them takes the division-by-zero branch; for `n = 0` the divisor
of each is zero and, nothing checking for it, each function runs into that division. -/
theorem divisions_by_n (data x y : List α) (n : Int) (hn : 1 ≤ n)
    (hdata : (data.length : Int) = n) (hx : (x.length : Int) = n)
    (hy : (y.length : Int) = n) :
    ((n : α) ≠ 0 ∧ (∀ a : α, fdiv a (n : α) = .ok (a / (n : α))) ∧
      calculate_average_scalar data n = .ok (data.sum / (n : α)) ∧
      (∃ v : α, calculate_variance_scalar data n = .ok v) ∧
      (∃ (s : Sums α) (x_mean y_mean : α), least_squares_sums x y n = .ok s ∧
        fdiv s.x_sum (n : α) = .ok x_mean ∧ fdiv s.y_sum (n : α) = .ok y_mean)) ∧
    ((((0 : Int) : α) = 0) ∧ (∀ a : α, fdiv a (((0 : Int) : α)) = .error .div_by_zero) ∧
      calculate_average_scalar data 0 = .error .div_by_zero ∧
      calculate_variance_scalar data 0 = .error .div_by_zero ∧
      calculate_least_squares_scalar x y 0 = .error .div_by_zero) := by
  have h0 := cast_ne_zero_of_pos (α := α) n hn
  refine ⟨⟨h0, fun a => fdiv_of_ne a _ h0, average_eq_sum data n hn hdata,
    ⟨_, variance_eq data n hn hdata⟩,
    ⟨_, _, _, least_squares_sums_eq x y n hx hy, fdiv_of_ne _ _ h0, fdiv_of_ne _ _ h0⟩⟩,
    ⟨Int.cast_zero, fun a => ?_, average_zero data, variance_zero data,
      least_squares_zero x y⟩⟩
  rw [Int.cast_zero]
  exact fdiv_zero a

theorem divisions_by_n_witness :
    (1 : Int) ≤ 2 ∧ ((([1, 5] : List ℚ).length : Int) = 2) ∧
      ((([3, 3] : List ℚ).length : Int) = 2) ∧ ((([0, 4] : List ℚ).length : Int) = 2) ∧
      ((((2 : Int) : ℚ) ≠ 0 ∧ (∀ a : ℚ, fdiv a ((2 : Int) : ℚ) = .ok (a / ((2 : Int) : ℚ))) ∧
        calculate_average_scalar [(1 : ℚ), 5] 2 = .ok (([1, 5] : List ℚ).sum / ((2 : Int) : ℚ)) ∧
        (∃ v : ℚ, calculate_variance_scalar [(1 : ℚ), 5] 2 = .ok v) ∧
        (∃ (s : Sums ℚ) (x_mean y_mean : ℚ), least_squares_sums [(3 : ℚ), 3] [0, 4] 2 = .ok s ∧
          fdiv s.x_sum ((2 : Int) : ℚ) = .ok x_mean ∧
          fdiv s.y_sum ((2 : Int) : ℚ) = .ok y_mean)) ∧
      ((((0 : Int) : ℚ) = 0) ∧ (∀ a : ℚ, fdiv a (((0 : Int) : ℚ)) = .error .div_by_zero) ∧
        calculate_average_scalar [(1 : ℚ), 5] 0 = .error .div_by_zero ∧
        calculate_variance_scalar [(1 : ℚ), 5] 0 = .error .div_by_zero ∧
        calculate_least_squares_scalar [(3 : ℚ), 3] [0, 4] 0 = .error .div_by_zero)) :=
  ⟨by decide, by decide, by decide, by decide,
    divisions_by_n [(1 : ℚ), 5] [3, 3] [0, 4] 2 (by decide) (by decide) (by decide)
      (by decide)⟩

end Divisions

/-! ## Further properties of the variance, the fit and the average -/

section Relations

variable {α : Type} [LinearOrderedField α]

theorem sum_sq_dev_nonneg (data : List α) (c : α) :
    0 ≤ (data.map (fun d => (d - c) ^ 2)).sum := by
  apply List.sum_nonneg
  intro v hv
  obtain ⟨w, _, rfl⟩ := List.mem_map.mp hv
  exact sq_nonneg _

/-- C16: for a sequence of length `n ≥ 1`, `calculate_variance_scalar` returns a value
`≥ 0`, and that value is `0` only if all elements are equal. -/
theorem calculate_variance_scalar_nonneg (data : List α) (n : Int) (hn : 1 ≤ n)
    (hlen : (data.length : Int) = n) :
    ∃ v : α, calculate_variance_scalar data n = .ok v ∧ 0 ≤ v ∧
      (v = 0 → ∀ a ∈ data, ∀ b ∈ data, a = b) := by
  have h0 := cast_ne_zero_of_pos (α := α) n hn
  have hpos : (0 : α) < (n : α) := by exact_mod_cast (by omega : (0 : Int) < n)
  refine ⟨_, variance_eq data n hn hlen, div_nonneg (sum_sq_dev_nonneg data _) hpos.le, ?_⟩
  intro hv a ha b hb
  rcases div_eq_zero_iff.mp hv with hs | hz
  · have hall := (sum_sq_eq_zero_iff data (data.sum / (n : α))).mp hs
    rw [hall a ha, hall b hb]
  · exact absurd hz h0

theorem calculate_variance_scalar_nonneg_witness :
    (1 : Int) ≤ 3 ∧ ((([1, 2, 6] : List ℚ).length : Int) = 3) ∧
      ∃ v : ℚ, calculate_variance_scalar [(1 : ℚ), 2, 6] 3 = .ok v ∧ 0 ≤ v ∧
        (v = 0 → ∀ a ∈ [(1 : ℚ), 2, 6], ∀ b ∈ [(1 : ℚ), 2, 6], a = b) :=
  ⟨by decide, by decide,
    calculate_variance_scalar_nonneg [(1 : ℚ), 2, 6] 3 (by decide) (by decide)⟩

/-- C18: for a sequence of length `n ≥ 1`, the value of `calculate_average_scalar` lies
between the minimum and the maximum element of the sequence, both included. -/
theorem calculate_average_scalar_bounds (data : List α) (n : Int) (hn : 1 ≤ n)
    (hlen : (data.length : Int) = n) (hpos : 0 < data.length) :
    ∃ v : α, calculate_average_scalar data n = .ok v ∧
      List.minimum_of_length_pos hpos ≤ v ∧ v ≤ List.maximum_of_length_pos hpos := by
  have hn0 : (0 : α) < (n : α) := by exact_mod_cast (by omega : (0 : Int) < n)
  have hcast : (data.length : α) = (n : α) := by
    exact_mod_cast congrArg (fun t : Int => (t : α)) hlen
  refine ⟨_, average_eq_sum data n hn hlen, ?_, ?_⟩
  · rw [le_div_iff₀ hn0]
    have h := List.card_nsmul_le_sum data (List.minimum_of_length_pos hpos)
      (fun d hd => List.minimum_of_length_pos_le_of_mem hd hpos)
    rw [nsmul_eq_mul, hcast] at h
    linarith
  · rw [div_le_iff₀ hn0]
    have h := List.sum_le_card_nsmul data (List.maximum_of_length_pos hpos)
      (fun d hd => List.le_maximum_of_length_pos_of_mem hd hpos)
    rw [nsmul_eq_mul, hcast] at h
    linarith

theorem calculate_average_scalar_bounds_witness :
    (1 : Int) ≤ 3 ∧ ((([4, 1, 6] : List ℚ).length : Int) = 3) ∧
      ∃ v : ℚ, calculate_average_scalar [(4 : ℚ), 1, 6] 3 = .ok v ∧
        List.minimum_of_length_pos (by decide : 0 < ([4, 1, 6] : List ℚ).length) ≤ v ∧
        v ≤ List.maximum_of_length_pos (by decide : 0 < ([4, 1, 6] : List ℚ).length) :=
  ⟨by decide, by decide,
    calculate_average_scalar_bounds [(4 : ℚ), 1, 6] 3 (by decide) (by decide) (by decide)⟩

/-- C14: for `x`, `y` of length `n ≥ 1` with the `x` values not all identical, the slope and
intercept `calculate_least_squares_scalar` computes are those of the formulas in its comment,
`m = (n*sum(x*y) - sum(x)*sum(y)) / (n*sum(x^2) - sum(x)^2)` and
`b = sum(y)/n - m*sum(x)/n`. -/
theorem calculate_least_squares_scalar_documented (x y : List α) (n : Int) (hn : 1 ≤ n)
    (hx : (x.length : Int) = n) (hy : (y.length : Int) = n)
    (hnc : ¬ ∀ u ∈ x, ∀ v ∈ x, u = v) :
    calculate_least_squares_scalar x y n
      = .ok (documented_slope x y n, documented_intercept x y n) := by
  have h0 := cast_ne_zero_of_pos (α := α) n hn
  have hd := slope_denominator_ne_zero x n hx hnc
  have hnum : slope_numerator x y n
      = ((n : α) * (List.zipWith (fun xi yi => xi * yi) x y).sum - x.sum * y.sum) / (n : α) := by
    simp only [slope_numerator, mean_of]
    field_simp
    ring
  have hden : slope_denominator x n
      = ((n : α) * (x.map (fun xi => xi ^ 2)).sum - x.sum ^ 2) / (n : α) := by
    simp only [slope_denominator, mean_of]
    field_simp
    ring
  have hm : fit_slope x y n = documented_slope x y n := by
    rw [fit_slope, hnum, hden, div_div_div_cancel_right₀ h0, documented_slope]
  have hb : fit_intercept x y n = documented_intercept x y n := by
    rw [fit_intercept, hm, documented_intercept, mean_of, mean_of, mul_div_assoc]
  rw [least_squares_of_ne x y n hn hx hy hd, hm, hb]

theorem calculate_least_squares_scalar_documented_witness :
    (1 : Int) ≤ 3 ∧ ((([1, 2, 4] : List ℚ).length : Int) = 3) ∧
      ((([3, 1, 5] : List ℚ).length : Int) = 3) ∧
      (¬ ∀ u ∈ [(1 : ℚ), 2, 4], ∀ v ∈ [(1 : ℚ), 2, 4], u = v) ∧
      calculate_least_squares_scalar [(1 : ℚ), 2, 4] [3, 1, 5] 3
        = .ok (documented_slope [(1 : ℚ), 2, 4] [3, 1, 5] 3,
            documented_intercept [(1 : ℚ), 2, 4] [3, 1, 5] 3) :=
  ⟨by decide, by decide, by decide, by decide,
    calculate_least_squares_scalar_documented [(1 : ℚ), 2, 4] [3, 1, 5] 3 (by decide)
      (by decide) (by decide) (by decide)⟩

end Relations

/-! ## The SIMD transform on a size that is not a multiple of 4 -/

section Remainder

end Remainder

/-! ## The row-reading loop of `main` -/

section Reading

theorem take_set_self {β : Type} (l : List β) (c : Nat) (v : β) :
    (l.set c v).take c = l.take c := by
  induction l generalizing c with
  | nil => simp
  | cons a t ih =>
    cases c with
    | zero => simp
    | succ c => simp [ih]

theorem take_succ_set_self {β : Type} (l : List β) (c : Nat) (v : β) (h : c < l.length) :
    (l.set c v).take (c + 1) = l.take c ++ [v] := by
  induction l generalizing c with
  | nil => simp at h
  | cons a t ih =>
    cases c with
    | zero => simp
    | succ c =>
      have hc : c < t.length := by simpa using h
      simp [ih c hc]

theorem take_ite_set_self {β : Type} (l : List β) (c : Nat) (v : β) (p : Prop) [Decidable p] :
    (if p then l.set c v else l).take c = l.take c := by
  split
  · exact take_set_self l c v
  · rfl

theorem length_ite_set {β : Type} (l : List β) (c : Nat) (v : β) (p : Prop) [Decidable p] :
    (if p then l.set c v else l).length = l.length := by
  split
  · exact List.length_set _ _ _
  · rfl

variable {α : Type}

theorem sized_scan_assign (cols : Columns α) (count : Nat) (s : Scan α) (n : Nat)
    (h : cols.sized n) : (scan_assign cols count s).sized n := by
  obtain ⟨h0, h1, h2, h3, h4, h5, h6⟩ := h
  simp only [Columns.sized, scan_assign, length_ite_set]
  exact ⟨h0, h1, h2, h3, h4, h5, h6⟩

theorem first_entries_scan_assign (cols : Columns α) (count : Nat) (s : Scan α)
    (rows : List (Row α)) (h : cols.first_entries count rows) :
    (scan_assign cols count s).first_entries count rows := by
  obtain ⟨h0, h1, h2, h3, h4, h5, h6⟩ := h
  simp only [Columns.first_entries, scan_assign, take_ite_set_self]
  exact ⟨h0, h1, h2, h3, h4, h5, h6⟩

theorem first_entries_scan_assign_succ (cols : Columns α) (count n : Nat) (s : Scan α)
    (rows : List (Row α)) (hs : s.converted = 7) (hc : count < n) (hn : cols.sized n)
    (h : cols.first_entries count rows) :
    (scan_assign cols count s).first_entries (count + 1) (rows ++ [s.row]) := by
  obtain ⟨h0, h1, h2, h3, h4, h5, h6⟩ := h
  obtain ⟨n0, n1, n2, n3, n4, n5, n6⟩ := hn
  simp only [Columns.first_entries, scan_assign, hs, Nat.lt_add_one, Nat.reduceLT, if_true,
    List.map_append, List.map_cons, List.map_nil]
  rw [take_succ_set_self _ _ _ (by omega), take_succ_set_self _ _ _ (by omega),
    take_succ_set_self _ _ _ (by omega), take_succ_set_self _ _ _ (by omega),
    take_succ_set_self _ _ _ (by omega), take_succ_set_self _ _ _ (by omega),
    take_succ_set_self _ _ _ (by omega), h0, h1, h2, h3, h4, h5, h6]
  exact ⟨rfl, rfl, rfl, rfl, rfl, rfl, rfl⟩

theorem read_rows_skip {L : Type} (sscanf : L → Scan α) (buffer : L) (rest : List L)
    (count : Nat) (cols : Columns α) (hc : count < MAX_LINES)
    (hs : (sscanf buffer).converted ≠ 7) :
    read_rows sscanf (buffer :: rest) count cols
      = read_rows sscanf rest count (scan_assign cols count (sscanf buffer)) := by
  simp only [read_rows, hc, if_true, hs, ne_eq, not_false_eq_true]

theorem read_rows_keep {L : Type} (sscanf : L → Scan α) (buffer : L) (rest : List L)
    (count : Nat) (cols : Columns α) (hc : count < MAX_LINES)
    (hs : (sscanf buffer).converted = 7) :
    read_rows sscanf (buffer :: rest) count cols
      = read_rows sscanf rest (count + 1) (scan_assign cols count (sscanf buffer)) := by
  simp only [read_rows, hc, if_true, hs, ne_eq, not_true_eq_false, if_false]

theorem read_rows_full {L : Type} (sscanf : L → Scan α) (lines : List L)
    (count : Nat) (cols : Columns α) (hc : MAX_LINES ≤ count) :
    read_rows sscanf lines count cols = (count, cols) := by
  cases lines with
  | nil => rfl
  | cons buffer rest => simp only [read_rows, Nat.not_lt.mpr hc, if_false]

theorem well_formed_rows_skip {L : Type} (sscanf : L → Scan α) (buffer : L) (rest : List L)
    (hs : (sscanf buffer).converted ≠ 7) :
    well_formed_rows sscanf (buffer :: rest) = well_formed_rows sscanf rest := by
  simp only [well_formed_rows, List.filterMap_cons, hs, if_false]

theorem well_formed_rows_keep {L : Type} (sscanf : L → Scan α) (buffer : L) (rest : List L)
    (hs : (sscanf buffer).converted = 7) :
    well_formed_rows sscanf (buffer :: rest)
      = (sscanf buffer).row :: well_formed_rows sscanf rest := by
  simp only [well_formed_rows, List.filterMap_cons, hs, if_true]

/-- Invariant of the reading loop, entered with `count` rows already stored. -/
theorem read_rows_inv {L : Type} (sscanf : L → Scan α) :
    ∀ (lines : List L) (count : Nat) (cols : Columns α) (rows : List (Row α)),
      count ≤ MAX_LINES → cols.sized MAX_LINES → cols.first_entries count rows →
      (read_rows sscanf lines count cols).1
          = min MAX_LINES (count + (well_formed_rows sscanf lines).length) ∧
        (read_rows sscanf lines count cols).2.sized MAX_LINES ∧
        (read_rows sscanf lines count cols).2.first_entries
          (read_rows sscanf lines count cols).1
          (rows ++ (well_formed_rows sscanf lines).take
            ((read_rows sscanf lines count cols).1 - count)) := by
  intro lines
  induction lines with
  | nil =>
    intro count cols rows hc hn hf
    simp only [read_rows, well_formed_rows, List.filterMap_nil, List.length_nil, Nat.add_zero,
      List.take_nil, List.append_nil]
    exact ⟨(min_eq_right hc).symm, hn, hf⟩
  | cons buffer rest ih =>
    intro count cols rows hc hn hf
    by_cases hlt : count < MAX_LINES
    · by_cases hs : (sscanf buffer).converted = 7
      · obtain ⟨i1, i2, i3⟩ := ih (count + 1) (scan_assign cols count (sscanf buffer))
          (rows ++ [(sscanf buffer).row]) hlt (sized_scan_assign _ _ _ _ hn)
          (first_entries_scan_assign_succ cols count MAX_LINES _ rows hs hlt hn hf)
        rw [read_rows_keep sscanf buffer rest count cols hlt hs,
          well_formed_rows_keep sscanf buffer rest hs]
        refine ⟨by rw [i1, List.length_cons]; omega, i2, ?_⟩
        have hge : count + 1 ≤ (read_rows sscanf rest (count + 1)
            (scan_assign cols count (sscanf buffer))).1 := by
          rw [i1]
          omega
        have hsub : (read_rows sscanf rest (count + 1)
            (scan_assign cols count (sscanf buffer))).1 - count
            = ((read_rows sscanf rest (count + 1)
              (scan_assign cols count (sscanf buffer))).1 - (count + 1)) + 1 := by omega
        rw [hsub, List.take_succ_cons]
        simpa using i3
      · obtain ⟨i1, i2, i3⟩ := ih count (scan_assign cols count (sscanf buffer)) rows hc
          (sized_scan_assign _ _ _ _ hn) (first_entries_scan_assign cols count _ rows hf)
        rw [read_rows_skip sscanf buffer rest count cols hlt hs,
          well_formed_rows_skip sscanf buffer rest hs]
        exact ⟨i1, i2, i3⟩
    · have hfull : MAX_LINES ≤ count := by omega
      rw [read_rows_full sscanf _ count cols hfull]
      refine ⟨by simp only []; omega, hn, ?_⟩
      simpa using hf

/-- C11: in the row-reading loop of `main`, a line on which `sscanf` does not convert 7
fields leaves `count` as it is and the loop goes on with the next line; on exit `count` is
`min MAX_LINES k`, with `k` the number of well-formed lines, the first `count` entries of the
seven arrays are the first `count` well-formed rows in file order, and
`count ≤ MAX_LINES = 33000`. -/
theorem read_rows_spec {L : Type} (sscanf : L → Scan α) (lines : List L) (mem : Columns α)
    (hmem : mem.sized MAX_LINES) :
    (∀ (buffer : L) (rest : List L) (count : Nat) (cols : Columns α),
      count < MAX_LINES → (sscanf buffer).converted ≠ 7 →
        read_rows sscanf (buffer :: rest) count cols
          = read_rows sscanf rest count (scan_assign cols count (sscanf buffer))) ∧
      (read_rows sscanf lines 0 mem).1
        = min MAX_LINES (well_formed_rows sscanf lines).length ∧
      (read_rows sscanf lines 0 mem).2.first_entries (read_rows sscanf lines 0 mem).1
        ((well_formed_rows sscanf lines).take
          (min MAX_LINES (well_formed_rows sscanf lines).length)) ∧
      (read_rows sscanf lines 0 mem).1 ≤ MAX_LINES ∧ MAX_LINES = 33000 := by
  have hzero : mem.first_entries 0 [] := by
    simp [Columns.first_entries]
  obtain ⟨i1, _, i3⟩ := read_rows_inv sscanf lines 0 mem [] (Nat.zero_le _) hmem hzero
  rw [Nat.zero_add] at i1
  refine ⟨fun buffer rest count cols hc hs => read_rows_skip sscanf buffer rest count cols hc hs,
    i1, ?_, by rw [i1]; exact min_le_left _ _, rfl⟩
  rw [List.nil_append, Nat.sub_zero, i1] at i3
  rw [i1]
  exact i3

theorem read_rows_spec_witness :
    (Columns.sized
        ({ line_id := List.replicate MAX_LINES 0, x_g := List.replicate MAX_LINES 0,
           y_g := List.replicate MAX_LINES 0, z_g := List.replicate MAX_LINES 0,
           x_deg := List.replicate MAX_LINES 0, y_deg := List.replicate MAX_LINES 0,
           z_deg := List.replicate MAX_LINES 0 } : Columns ℚ) MAX_LINES) ∧
      (read_rows (fun b : Bool => if b then (⟨7, ⟨1, 2, 3, 4, 5, 6, 7⟩⟩ : Scan ℚ)
            else ⟨2, ⟨9, 9, 9, 9, 9, 9, 9⟩⟩) [true, false, true] 0
          { line_id := List.replicate MAX_LINES 0, x_g := List.replicate MAX_LINES 0,
            y_g := List.replicate MAX_LINES 0, z_g := List.replicate MAX_LINES 0,
            x_deg := List.replicate MAX_LINES 0, y_deg := List.replicate MAX_LINES 0,
            z_deg := List.replicate MAX_LINES 0 }).1 = 2 ∧
      (read_rows (fun b : Bool => if b then (⟨7, ⟨1, 2, 3, 4, 5, 6, 7⟩⟩ : Scan ℚ)
            else ⟨2, ⟨9, 9, 9, 9, 9, 9, 9⟩⟩) [true, false, true] 0
          { line_id := List.replicate MAX_LINES 0, x_g := List.replicate MAX_LINES 0,
            y_g := List.replicate MAX_LINES 0, z_g := List.replicate MAX_LINES 0,
            x_deg := List.replicate MAX_LINES 0, y_deg := List.replicate MAX_LINES 0,
            z_deg := List.replicate MAX_LINES 0 }).2.first_entries 2
        [⟨1, 2, 3, 4, 5, 6, 7⟩, ⟨1, 2, 3, 4, 5, 6, 7⟩] := by
  have hmem : Columns.sized
      ({ line_id := List.replicate MAX_LINES 0, x_g := List.replicate MAX_LINES 0,
         y_g := List.replicate MAX_LINES 0, z_g := List.replicate MAX_LINES 0,
         x_deg := List.replicate MAX_LINES 0, y_deg := List.replicate MAX_LINES 0,
         z_deg := List.replicate MAX_LINES 0 } : Columns ℚ) MAX_LINES := by
    simp only [Columns.sized, List.length_replicate, and_self]
  have hrows : well_formed_rows (fun b : Bool => if b then (⟨7, ⟨1, 2, 3, 4, 5, 6, 7⟩⟩ : Scan ℚ)
      else ⟨2, ⟨9, 9, 9, 9, 9, 9, 9⟩⟩) [true, false, true]
      = [⟨1, 2, 3, 4, 5, 6, 7⟩, ⟨1, 2, 3, 4, 5, 6, 7⟩] := by
    simp [well_formed_rows]
  have hmin : min MAX_LINES 2 = 2 := by decide
  have h := read_rows_spec (fun b : Bool => if b then (⟨7, ⟨1, 2, 3, 4, 5, 6, 7⟩⟩ : Scan ℚ)
      else ⟨2, ⟨9, 9, 9, 9, 9, 9, 9⟩⟩) [true, false, true] _ hmem
  rw [hrows] at h
  simp only [List.length_cons, List.length_nil, Nat.zero_add, Nat.reduceAdd, hmin,
    List.take_succ_cons, List.take_zero] at h
  obtain ⟨_, h2, h3, _⟩ := h
  rw [h2] at h3
  exact ⟨hmem, h2, h3⟩

end Reading

/-! ## The exit code of `main` -/

section ExitCode

variable {α : Type} [Field α] [DecidableEq α]

theorem main_none {L : Type} (sqrt : α → α) (sscanf : L → Scan α) (mem : Columns α)
    (magnitudes : List α) : (main sqrt sscanf none mem magnitudes).1 = EXIT_FAILURE := rfl

theorem main_no_header {L : Type} (sqrt : α → α) (sscanf : L → Scan α) (mem : Columns α)
    (magnitudes : List α) : (main sqrt sscanf (some []) mem magnitudes).1 = EXIT_FAILURE := rfl

theorem main_header {L : Type} (sqrt : α → α) (sscanf : L → Scan α) (header : L)
    (lines : List L) (mem : Columns α) (magnitudes : List α) :
    (main sqrt sscanf (some (header :: lines)) mem magnitudes).1 = EXIT_SUCCESS := rfl

/-- C13, as the claim states it, fails: a `data.csv` that can be opened but is empty (no
header line to read) makes `main` return `EXIT_FAILURE`. -/
theorem main_exit_code_counterexample :
    ¬ ((main (fun q : ℚ => q) (fun _ : Unit => (⟨0, ⟨0, 0, 0, 0, 0, 0, 0⟩⟩ : Scan ℚ))
          (some [])
          { line_id := List.replicate MAX_LINES 0, x_g := List.replicate MAX_LINES 0,
            y_g := List.replicate MAX_LINES 0, z_g := List.replicate MAX_LINES 0,
            x_deg := List.replicate MAX_LINES 0, y_deg := List.replicate MAX_LINES 0,
            z_deg := List.replicate MAX_LINES 0 }
          (List.replicate MAX_LINES 0)).1 = EXIT_FAILURE
        ↔ (some [] : Option (List Unit)) = none) := by
  intro h
  have hnone := h.mp (main_no_header _ _ _ _)
  exact Option.noConfusion hnone

/-- C13, amended: `main` returns `EXIT_FAILURE` if and only if `data.csv` cannot be opened or
its header line cannot be read (the file is empty); for every file that has a header line it
returns `EXIT_SUCCESS`, whatever the other lines and the computed values. -/
theorem main_exit_code {L : Type} (sqrt : α → α) (sscanf : L → Scan α)
    (file : Option (List L)) (mem : Columns α) (magnitudes : List α) :
    ((main sqrt sscanf file mem magnitudes).1 = EXIT_FAILURE ↔ file = none ∨ file = some []) ∧
      (∀ (header : L) (lines : List L),
        (main sqrt sscanf (some (header :: lines)) mem magnitudes).1 = EXIT_SUCCESS) ∧
      EXIT_SUCCESS ≠ EXIT_FAILURE := by
  refine ⟨?_, fun header lines => main_header sqrt sscanf header lines mem magnitudes,
    by decide⟩
  match file with
  | none => exact ⟨fun _ => Or.inl rfl, fun _ => main_none sqrt sscanf mem magnitudes⟩
  | some [] => exact ⟨fun _ => Or.inr rfl, fun _ => main_no_header sqrt sscanf mem magnitudes⟩
  | some (header :: lines) =>
    constructor
    · intro h
      rw [main_header sqrt sscanf header lines mem magnitudes] at h
      exact absurd h (by decide)
    · intro h
      rcases h with h | h
      · exact Option.noConfusion h
      · exact List.noConfusion (Option.some.inj h)

end ExitCode

/-! ## Binary32 runs -/

section Binary32Runs

theorem int_log_two_eq (r : ℚ) (e : ℤ) (h1 : (2 : ℚ) ^ e ≤ r) (h2 : r < (2 : ℚ) ^ (e + 1)) :
    Int.log 2 r = e := by
  have hr : 0 < r := lt_of_lt_of_le (zpow_pos (by norm_num) e) h1
  have h1' : ((2 : ℕ) : ℚ) ^ e ≤ r := by simpa using h1
  have h2' : r < ((2 : ℕ) : ℚ) ^ (e + 1) := by simpa using h2
  have hle : e ≤ Int.log 2 r := (Int.zpow_le_iff_le_log (by norm_num) hr).mp h1'
  have hlt : Int.log 2 r < e + 1 := (Int.lt_zpow_iff_log_lt (by norm_num) hr).mp h2'
  omega

theorem round_half_even_of_lt (r : ℚ) (z : ℤ) (h1 : (z : ℚ) ≤ r) (h2 : r < z + 1 / 2) :
    round_half_even r = z := by
  have hf : ⌊r⌋ = z := Int.floor_eq_iff.mpr ⟨h1, by linarith⟩
  unfold round_half_even
  rw [hf, if_pos (by linarith)]

theorem round_half_even_of_gt (r : ℚ) (z : ℤ) (h1 : (z : ℚ) + 1 / 2 < r) (h2 : r < z + 1) :
    round_half_even r = z + 1 := by
  have hf : ⌊r⌋ = z := Int.floor_eq_iff.mpr ⟨by linarith, h2⟩
  unfold round_half_even
  rw [hf, if_neg (by linarith), if_pos (by linarith)]

theorem round_half_even_tie (r : ℚ) (z : ℤ) (h : r = z + 1 / 2) (hz : z % 2 = 0) :
    round_half_even r = z := by
  have hf : ⌊r⌋ = z := Int.floor_eq_iff.mpr ⟨by linarith, by linarith⟩
  unfold round_half_even
  rw [hf, if_neg (by linarith), if_neg (by linarith), if_pos hz]

theorem round_nearest_eq (p : ℕ) (emin emax : ℤ) (q : ℚ) (e n : ℤ) (he : emin ≤ e)
    (h0 : 0 < q) (h1 : (2 : ℚ) ^ e ≤ q) (h2 : q < (2 : ℚ) ^ (e + 1))
    (hn : round_half_even (q / (2 : ℚ) ^ (e - ((p : ℤ) - 1))) = n) (hn0 : 0 ≤ n)
    (hfin : (n : ℚ) * (2 : ℚ) ^ (e - ((p : ℤ) - 1)) < (2 : ℚ) ^ (emax + 1)) :
    round_nearest p emin emax q = .finite ((n : ℚ) * (2 : ℚ) ^ (e - ((p : ℤ) - 1))) := by
  have hlog : Int.log 2 |q| = e := by
    rw [abs_of_pos h0]
    exact int_log_two_eq q e h1 h2
  have hr : 0 ≤ (n : ℚ) * (2 : ℚ) ^ (e - ((p : ℤ) - 1)) :=
    mul_nonneg (by exact_mod_cast hn0) (zpow_pos (by norm_num) _).le
  simp only [round_nearest, hlog, max_eq_left he, hn, abs_of_nonneg hr]
  rw [if_neg (not_le.mpr hfin)]

theorem round32_eq (q : ℚ) (e n : ℤ) (he : -126 ≤ e) (h0 : 0 < q) (h1 : (2 : ℚ) ^ e ≤ q)
    (h2 : q < (2 : ℚ) ^ (e + 1)) (hn : round_half_even (q / (2 : ℚ) ^ (e - 23)) = n)
    (hn0 : 0 ≤ n) (hfin : (n : ℚ) * (2 : ℚ) ^ (e - 23) < (2 : ℚ) ^ (128 : ℤ)) :
    round32 q = .finite ((n : ℚ) * (2 : ℚ) ^ (e - 23)) :=
  round_nearest_eq 24 (-126) 127 q e n he h0 h1 h2 hn hn0 hfin

theorem round32_zero : round32 0 = .finite 0 := by
  simp only [round32, round_nearest, zero_div, round_half_even, Int.floor_zero, Int.cast_zero,
    sub_zero, zero_mul, abs_zero]
  norm_num

theorem round64_eq (q : ℚ) (e n : ℤ) (he : -1022 ≤ e) (h0 : 0 < q) (h1 : (2 : ℚ) ^ e ≤ q)
    (h2 : q < (2 : ℚ) ^ (e + 1)) (hn : round_half_even (q / (2 : ℚ) ^ (e - 52)) = n)
    (hn0 : 0 ≤ n) (hfin : (n : ℚ) * (2 : ℚ) ^ (e - 52) < (2 : ℚ) ^ (1024 : ℤ)) :
    round64 q = .finite ((n : ℚ) * (2 : ℚ) ^ (e - 52)) :=
  round_nearest_eq 53 (-1022) 1023 q e n he h0 h1 h2 hn hn0 hfin

/-- The `double` constant `1.8`, converted to `float`, is `7549747 / 4194304`. -/
theorem constant_binary32 : to_binary32 (round64 1.8) = .finite (7549747 / 4194304) := by
  have h64 : round64 1.8 = .finite (8106479329266893 / 4503599627370496) := by
    rw [round64_eq 1.8 0 8106479329266893 (by norm_num) (by norm_num) (by norm_num)
      (by norm_num) (round_half_even_of_gt _ 8106479329266892 (by norm_num) (by norm_num))
      (by norm_num) (by norm_num)]
    norm_num
  rw [h64]
  show round32 (8106479329266893 / 4503599627370496) = _
  rw [round32_eq _ 0 15099494 (by norm_num) (by norm_num) (by norm_num) (by norm_num)
    (round_half_even_of_lt _ _ (by norm_num) (by norm_num)) (by norm_num) (by norm_num)]
  norm_num

theorem simd_binary32_loop_done (input output : List FloatValue) (size : Int) (i : Nat)
    (h : size ≤ i) : process_temperature_simd_binary32_loop input output size i = .ok output := by
  rw [process_temperature_simd_binary32_loop, if_neg (by omega)]
  rfl

theorem simd_binary32_loop_step (input output output' : List FloatValue) (size : Int) (i : Nat)
    (data : float32x4_t FloatValue) (h : (i : Int) < size)
    (hld : vld1q_f32 input i = .ok data)
    (hst : vst1q_f32 output i (vmulq_n_binary32 data (to_binary32 (round64 1.8)))
      = .ok output') :
    process_temperature_simd_binary32_loop input output size i
      = process_temperature_simd_binary32_loop input output' size (i + 4) := by
  rw [process_temperature_simd_binary32_loop, if_pos h, hld, ok_bind]
  dsimp only
  rw [hst, ok_bind]

/-- C9, as the claim states it, fails in binary32 arithmetic: on the input `1, 2, 3, 4` the
routine stores `7549747/4194304`, `7549747/2097152`, `2831155/524288`, `7549747/1048576`
(the constant is the `float` nearest to `1.8`, and the third product is rounded), none of
which is `input[i] * 1.8`. -/
theorem process_temperature_simd_spec_counterexample :
    process_temperature_simd_binary32
        [.finite 1, .finite 2, .finite 3, .finite 4]
        [.finite 0, .finite 0, .finite 0, .finite 0] 4
      = .ok [.finite (7549747 / 4194304), .finite (7549747 / 2097152),
          .finite (2831155 / 524288), .finite (7549747 / 1048576)] ∧
      (7549747 / 4194304 : ℚ) ≠ 1 * 1.8 ∧ (7549747 / 2097152 : ℚ) ≠ 2 * 1.8 ∧
      (2831155 / 524288 : ℚ) ≠ 3 * 1.8 ∧ (7549747 / 1048576 : ℚ) ≠ 4 * 1.8 := by
  have h1 : round32 (1 * (7549747 / 4194304)) = .finite (7549747 / 4194304) := by
    rw [round32_eq _ 0 15099494 (by norm_num) (by norm_num) (by norm_num) (by norm_num)
      (round_half_even_of_lt _ _ (by norm_num) (by norm_num)) (by norm_num) (by norm_num)]
    norm_num
  have h2 : round32 (2 * (7549747 / 4194304)) = .finite (7549747 / 2097152) := by
    rw [round32_eq _ 1 15099494 (by norm_num) (by norm_num) (by norm_num) (by norm_num)
      (round_half_even_of_lt _ _ (by norm_num) (by norm_num)) (by norm_num) (by norm_num)]
    norm_num
  have h3 : round32 (3 * (7549747 / 4194304)) = .finite (2831155 / 524288) := by
    rw [round32_eq _ 2 11324620 (by norm_num) (by norm_num) (by norm_num) (by norm_num)
      (round_half_even_tie _ _ (by norm_num) (by decide)) (by norm_num) (by norm_num)]
    norm_num
  have h4 : round32 (4 * (7549747 / 4194304)) = .finite (7549747 / 1048576) := by
    rw [round32_eq _ 2 15099494 (by norm_num) (by norm_num) (by norm_num) (by norm_num)
      (round_half_even_of_lt _ _ (by norm_num) (by norm_num)) (by norm_num) (by norm_num)]
    norm_num
  refine ⟨?_, by norm_num, by norm_num, by norm_num, by norm_num⟩
  have hst : vst1q_f32 [FloatValue.finite 0, .finite 0, .finite 0, .finite 0] 0
      (vmulq_n_binary32 ⟨.finite 1, .finite 2, .finite 3, .finite 4⟩
        (to_binary32 (round64 1.8)))
      = .ok [.finite (7549747 / 4194304), .finite (7549747 / 2097152),
          .finite (2831155 / 524288), .finite (7549747 / 1048576)] := by
    rw [constant_binary32]
    simp only [vmulq_n_binary32, binary32_mul, h1, h2, h3, h4]
    rfl
  rw [process_temperature_simd_binary32,
    simd_binary32_loop_step _ _ _ 4 0 _ (by decide) (vld1q_of_lt _ 0 (by decide)) hst,
    simd_binary32_loop_done _ _ 4 4 (by decide)]

theorem round_nearest_overflow (p : ℕ) (emin emax : ℤ) (q : ℚ) (e n : ℤ) (he : emin ≤ e)
    (h0 : 0 < q) (h1 : (2 : ℚ) ^ e ≤ q) (h2 : q < (2 : ℚ) ^ (e + 1))
    (hn : round_half_even (q / (2 : ℚ) ^ (e - ((p : ℤ) - 1))) = n) (hn0 : 0 ≤ n)
    (hbig : (2 : ℚ) ^ (emax + 1) ≤ (n : ℚ) * (2 : ℚ) ^ (e - ((p : ℤ) - 1))) :
    round_nearest p emin emax q = .pos_inf := by
  have hlog : Int.log 2 |q| = e := by
    rw [abs_of_pos h0]
    exact int_log_two_eq q e h1 h2
  have hr : 0 ≤ (n : ℚ) * (2 : ℚ) ^ (e - ((p : ℤ) - 1)) :=
    mul_nonneg (by exact_mod_cast hn0) (zpow_pos (by norm_num) _).le
  simp only [round_nearest, hlog, max_eq_left he, hn, abs_of_nonneg hr]
  rw [if_pos hbig, if_neg (not_lt.mpr h0.le)]

theorem for_loop_bind {σ : Type} (n : Int) (body : Nat → σ → Except Fault σ) (i : Nat) (s : σ)
    (h : (i : Int) < n) : for_loop n body i s = (body i s >>= for_loop n body (i + 1)) := by
  rw [for_loop, if_pos h]
  cases body i s <;> rfl

theorem round32_one : round32 1 = .finite 1 := by
  rw [round32_eq 1 0 8388608 (by norm_num) (by norm_num) (by norm_num) (by norm_num)
    (round_half_even_of_lt _ _ (by norm_num) (by norm_num)) (by norm_num) (by norm_num)]
  norm_num

theorem round32_two : round32 2 = .finite 2 := by
  rw [round32_eq 2 1 8388608 (by norm_num) (by norm_num) (by norm_num) (by norm_num)
    (round_half_even_of_lt _ _ (by norm_num) (by norm_num)) (by norm_num) (by norm_num)]
  norm_num

theorem round32_three : round32 3 = .finite 3 := by
  rw [round32_eq 3 1 12582912 (by norm_num) (by norm_num) (by norm_num) (by norm_num)
    (round_half_even_of_lt _ _ (by norm_num) (by norm_num)) (by norm_num) (by norm_num)]
  norm_num

theorem round32_two_pow_128 : round32 (2 ^ 128) = .pos_inf :=
  round_nearest_overflow 24 (-126) 127 (2 ^ 128) 128 8388608 (by norm_num) (by norm_num)
    (by norm_num) (by norm_num) (round_half_even_of_lt _ _ (by norm_num) (by norm_num))
    (by norm_num) (by norm_num)

theorem binary32_mul_finite (a b : ℚ) :
    binary32_mul (.finite a) (.finite b) = round32 (a * b) := by
  rw [binary32_mul]

theorem binary32_add_finite (a b : ℚ) :
    binary32_add (.finite a) (.finite b) = round32 (a + b) := by
  rw [binary32_add]

theorem binary32_sub_finite (a b : ℚ) :
    binary32_sub (.finite a) (.finite b) = round32 (a + -b) := by
  rw [binary32_sub, binary32_neg, binary32_add]

theorem binary32_div_finite (a b : ℚ) (hb : b ≠ 0) :
    binary32_div (.finite a) (.finite b) = round32 (a / b) := by
  simp only [binary32_div, hb, if_false]

theorem load_cons_zero {β : Type} (a : β) (t : List β) : load (a :: t) 0 = .ok a := by
  simp only [load, List.getElem?_cons_zero]

theorem load_cons_succ {β : Type} (a : β) (t : List β) (i : Nat) :
    load (a :: t) (i + 1) = load t i := by
  simp only [load, List.getElem?_cons_succ]

theorem magnitudes_binary32_unit (sqrt : FloatValue → FloatValue) :
    calculate_magnitudes_scalar_binary32 sqrt [.finite 1] [.finite 1] [.finite 0] [.finite 0] 1
      = .ok [to_binary32 (sqrt (.finite 2))] := by
  refine (for_loop_step 1 _ 0 _ [to_binary32 (sqrt (.finite 2))] (by decide) ?_).trans
    (for_loop_done 1 _ 1 _ (by decide))
  norm_num [load_cons_zero, ok_bind, binary32_mul_finite, binary32_add_finite, round32_one,
    round32_two, round32_zero, store]

theorem magnitudes_binary32_overflow (sqrt : FloatValue → FloatValue) :
    calculate_magnitudes_scalar_binary32 sqrt [.finite 18446744073709551616] [.finite 0]
        [.finite 0] [.finite 0] 1
      = .ok [to_binary32 (sqrt .pos_inf)] := by
  have hsq : round32 (18446744073709551616 * 18446744073709551616) = .pos_inf := by
    have h : (18446744073709551616 * 18446744073709551616 : ℚ) = 2 ^ 128 := by norm_num
    rw [h]
    exact round32_two_pow_128
  refine (for_loop_step 1 _ 0 _ [to_binary32 (sqrt .pos_inf)] (by decide) ?_).trans
    (for_loop_done 1 _ 1 _ (by decide))
  have hadd : ∀ q : ℚ, binary32_add .pos_inf (.finite q) = .pos_inf := fun q => by
    rw [binary32_add]
    all_goals simp
  simp only [load_cons_zero, ok_bind, binary32_mul_finite, hsq, mul_zero, round32_zero, hadd]
  simp [store]

/-- The number `5592407 / 4194304` (about `1.3333337`) is a binary32 value. -/
theorem round32_sample : round32 (5592407 / 4194304) = .finite (5592407 / 4194304) := by
  rw [round32_eq _ 0 11184814 (by norm_num) (by norm_num) (by norm_num) (by norm_num)
    (round_half_even_of_lt _ _ (by norm_num) (by norm_num)) (by norm_num) (by norm_num)]
  norm_num

theorem variance_binary32_three :
    calculate_variance_scalar_binary32
        [.finite (5592407 / 4194304), .finite (5592407 / 4194304), .finite (5592407 / 4194304)] 3
      = .ok (.finite (1 / 70368744177664)) := by
  have e1 := round32_sample
  have e2 : round32 (5592407 / 2097152) = .finite (5592407 / 2097152) := by
    rw [round32_eq _ 1 11184814 (by norm_num) (by norm_num) (by norm_num) (by norm_num)
      (round_half_even_of_lt _ _ (by norm_num) (by norm_num)) (by norm_num) (by norm_num)]
    norm_num
  have e3 : round32 (16777221 / 4194304) = .finite (4194305 / 1048576) := by
    rw [round32_eq _ 2 8388610 (by norm_num) (by norm_num) (by norm_num) (by norm_num)
      (round_half_even_tie _ _ (by norm_num) (by decide)) (by norm_num) (by norm_num)]
    norm_num
  have e4 : round32 (4194305 / 3145728) = .finite (11184813 / 8388608) := by
    rw [round32_eq _ 0 11184813 (by norm_num) (by norm_num) (by norm_num) (by norm_num)
      (round_half_even_of_lt _ _ (by norm_num) (by norm_num)) (by norm_num) (by norm_num)]
    norm_num
  have e5 : round32 (1 / 8388608) = .finite (1 / 8388608) := by
    rw [round32_eq _ (-23) 8388608 (by norm_num) (by norm_num) (by norm_num) (by norm_num)
      (round_half_even_of_lt _ _ (by norm_num) (by norm_num)) (by norm_num) (by norm_num)]
    norm_num
  have e6 : round32 (1 / 70368744177664) = .finite (1 / 70368744177664) := by
    rw [round32_eq _ (-46) 8388608 (by norm_num) (by norm_num) (by norm_num) (by norm_num)
      (round_half_even_of_lt _ _ (by norm_num) (by norm_num)) (by norm_num) (by norm_num)]
    norm_num
  have e7 : round32 (1 / 35184372088832) = .finite (1 / 35184372088832) := by
    rw [round32_eq _ (-45) 8388608 (by norm_num) (by norm_num) (by norm_num) (by norm_num)
      (round_half_even_of_lt _ _ (by norm_num) (by norm_num)) (by norm_num) (by norm_num)]
    norm_num
  have e8 : round32 (3 / 70368744177664) = .finite (3 / 70368744177664) := by
    rw [round32_eq _ (-45) 12582912 (by norm_num) (by norm_num) (by norm_num) (by norm_num)
      (round_half_even_of_lt _ _ (by norm_num) (by norm_num)) (by norm_num) (by norm_num)]
    norm_num
  have h3 : binary32_of_int 3 = .finite 3 := by
    rw [binary32_of_int]
    norm_num [round32_three]
  have hsum : for_loop 3 (fun i mean => do
      let d ← load [FloatValue.finite (5592407 / 4194304), .finite (5592407 / 4194304),
        .finite (5592407 / 4194304)] i
      pure (binary32_add mean d)) 0 (.finite 0) = .ok (.finite (4194305 / 1048576)) := by
    refine (for_loop_step 3 _ 0 _ (.finite (5592407 / 4194304)) (by decide) ?_).trans ?_
    · norm_num [load_cons_zero, binary32_add_finite, e1]
    refine (for_loop_step 3 _ 1 _ (.finite (5592407 / 2097152)) (by decide) ?_).trans ?_
    · norm_num [load_cons_zero, load_cons_succ, binary32_add_finite, e2]
    refine (for_loop_step 3 _ 2 _ (.finite (4194305 / 1048576)) (by decide) ?_).trans
      (for_loop_done 3 _ 3 _ (by decide))
    norm_num [load_cons_zero, load_cons_succ, binary32_add_finite, e3]
  have hmean : binary32_div (.finite (4194305 / 1048576)) (binary32_of_int 3)
      = .finite (11184813 / 8388608) := by
    rw [h3, binary32_div_finite _ _ (by norm_num)]
    norm_num [e4]
  have hdev : for_loop 3 (fun i variance => do
      let d ← load [FloatValue.finite (5592407 / 4194304), .finite (5592407 / 4194304),
        .finite (5592407 / 4194304)] i
      let diff := binary32_sub d (.finite (11184813 / 8388608))
      pure (binary32_add variance (binary32_mul diff diff))) 0 (.finite 0)
      = .ok (.finite (3 / 70368744177664)) := by
    refine (for_loop_step 3 _ 0 _ (.finite (1 / 70368744177664)) (by decide) ?_).trans ?_
    · norm_num [load_cons_zero, binary32_add_finite, binary32_sub_finite, binary32_mul_finite,
        e5, e6]
    refine (for_loop_step 3 _ 1 _ (.finite (1 / 35184372088832)) (by decide) ?_).trans ?_
    · norm_num [load_cons_zero, load_cons_succ, binary32_add_finite, binary32_sub_finite,
        binary32_mul_finite, e5, e6, e7]
    refine (for_loop_step 3 _ 2 _ (.finite (3 / 70368744177664)) (by decide) ?_).trans
      (for_loop_done 3 _ 3 _ (by decide))
    norm_num [load_cons_zero, load_cons_succ, binary32_add_finite, binary32_sub_finite,
      binary32_mul_finite, e5, e6, e8]
  have hlast : binary32_div (.finite (3 / 70368744177664)) (binary32_of_int 3)
      = .finite (1 / 70368744177664) := by
    rw [h3, binary32_div_finite _ _ (by norm_num)]
    norm_num [e6]
  simp only [calculate_variance_scalar_binary32]
  rw [hsum, ok_bind, hmean, hdev, ok_bind, hlast]
  rfl

/-- C7, as the claim states it, fails in binary32 arithmetic: on three copies of the `float`
`k = 5592407/4194304` the sum `3k` is rounded, the mean comes out one unit in the last place
below `k`, and `calculate_variance_scalar` returns `2^-46`, not `0`. -/
theorem calculate_variance_scalar_const_counterexample :
    round32 (5592407 / 4194304) = .finite (5592407 / 4194304) ∧
      calculate_variance_scalar_binary32 (List.replicate 3 (.finite (5592407 / 4194304))) 3
        = .ok (.finite (1 / 70368744177664)) ∧
      (1 / 70368744177664 : ℚ) = 2 ^ (-46 : ℤ) ∧ (1 / 70368744177664 : ℚ) ≠ 0 :=
  ⟨round32_sample, variance_binary32_three, by norm_num, by norm_num⟩

/-- C2, as the claim states it, fails in binary32 arithmetic: on `x = [1]`, `y = [1]`,
`z = [0]` the routine stores the `float` nearest to what `sqrt` returns for `2`, a binary32
value, which cannot be the real number `sqrt (1^2 + 1^2 + 0^2)`; and on `x = [2^64]` the
square overflows, so that `sqrt` is applied to `+inf` and not to `2^128`. -/
theorem calculate_magnitudes_scalar_spec_counterexample :
    (∀ sqrt : FloatValue → FloatValue,
      calculate_magnitudes_scalar_binary32 sqrt [.finite 1] [.finite 1] [.finite 0]
        [.finite 0] 1 = .ok [to_binary32 (sqrt (.finite 2))]) ∧
      (¬ ∃ (sqrt : FloatValue → FloatValue) (r : ℚ),
        calculate_magnitudes_scalar_binary32 sqrt [.finite 1] [.finite 1] [.finite 0]
          [.finite 0] 1 = .ok [.finite r] ∧
        (r : ℝ) = Real.sqrt (1 ^ 2 + 1 ^ 2 + 0 ^ 2)) ∧
      (∀ sqrt : FloatValue → FloatValue,
        calculate_magnitudes_scalar_binary32 sqrt [.finite 18446744073709551616] [.finite 0]
          [.finite 0] [.finite 0] 1 = .ok [to_binary32 (sqrt .pos_inf)]) := by
  refine ⟨magnitudes_binary32_unit, ?_, magnitudes_binary32_overflow⟩
  rintro ⟨_, r, _, hr⟩
  have h2 : Real.sqrt (1 ^ 2 + 1 ^ 2 + 0 ^ 2) = Real.sqrt 2 := by norm_num
  rw [h2] at hr
  exact irrational_sqrt_two.ne_rat r hr.symm

end Binary32Runs

end Workshop
